import Mathlib

/-!
Verification of the A2UI backend orchestration layer.

This file gives a shallow embedding, in Lean 4, of the pure decision
logic of `backend/llm_providers.py`, `backend/content_styles/__init__.py`
and `backend/tools.py`, and proves (or refutes) the specified properties
of that logic.

Modelling conventions:
* Python strings are modelled as `List Char`; `chars s` converts a Lean
  string literal.  Python `len(s.encode("utf-8"))` is `utf8Len`.
* Python whitespace (`str.strip`, `str.split`, regex `\s`) is modelled by
  the six ASCII whitespace characters; the unicode space classes that
  Python additionally accepts play no role in any claim.
* `json.dumps` / `json.loads` from the Python standard library are
  modelled by `ser` / `jsonLoads` over the `Json` inductive below.
  JSON numbers are modelled as integers (no claim depends on floats),
  and string serialisation is modelled with `ensure_ascii` disabled:
  `"` and `\` and control characters are escaped, other characters kept
  literal.  The escaping regime does not affect any claim.
* Stateful/async Python code is modelled by explicit parameters: the
  outcome of a network call becomes a function argument.
-/

-- ── Character classes and Python string helpers ────────────────

/-- Convert a Lean string literal to the `List Char` string model. -/
def chars (s : String) : List Char := s.data

/-- ASCII whitespace as recognised by Python `str.strip` / `str.split` / `\s`. -/
def pySpace (c : Char) : Bool :=
  c = ' ' || c = '\t' || c = '\n' || c = '\r' || c = '\x0b' || c = '\x0c'

/-- Whitespace accepted between JSON tokens by `json.loads`. -/
def jsonSpace (c : Char) : Bool :=
  c = ' ' || c = '\t' || c = '\n' || c = '\r'

/-- ASCII decimal digit. -/
def isDig (c : Char) : Bool := '0' ≤ c && c ≤ '9'

/-- Word character for the regex class `\w` (ASCII part). -/
def pyWordChar (c : Char) : Bool := c.isAlphanum || c = '_'

/-- Lower-case a modelled Python string (`str.lower`). -/
def toLowerList (s : List Char) : List Char := s.map Char.toLower

/-- `str.strip()`: remove leading and trailing whitespace. -/
def pyStripList (s : List Char) : List Char :=
  List.rdropWhile pySpace (s.dropWhile pySpace)

/-- Substring test: Python `needle in hay`. -/
def containsSub (hay needle : List Char) : Bool :=
  decide ((needle : List Char) <:+: hay)

/-- UTF-8 byte length of a modelled string (`len(s.encode("utf-8"))`). -/
def utf8Len (s : List Char) : Nat := (s.map Char.utf8Size).sum

-- ── Tool gate resolution (llm_providers.py, resolve_tool) ──────

/-- Model of `resolve_tool(env_override, user_setting, default=True)`.
The `dflt` parameter mirrors the Python `default` argument, which the
source never reads. -/
def resolve_tool (envOverride : Option Bool) (userSetting : Bool)
    (dflt : Bool := true) : Bool :=
  match envOverride with
  | some v => v
  | none => userSetting

-- ── History budgeter (llm_providers.py, _trim_history) ─────────

/-- A conversation turn `{role, content}`. -/
structure Msg where
  role : List Char
  content : List Char

/-- The newest-first greedy walk inside `_trim_history`: take messages
while they fit, stop at the first that would overflow the budget.
The input list is the reversed history (newest first). -/
def trimTake : List Msg → Nat → List Msg
  | [], _ => []
  | m :: rest, budget =>
    let b := utf8Len m.content
    if b > budget then []
    else m :: trimTake rest (budget - b)

/-- Model of `_trim_history(history, system_prompt_bytes, message_bytes,
max_body_bytes)`.  `none` = unlimited.  Python's
`max(0, max_body_bytes - system_prompt_bytes - message_bytes)` is the
truncated `Nat` subtraction. -/
def trim_history (history : List Msg) (systemPromptBytes messageBytes : Nat)
    (maxBodyBytes : Option Nat) : List Msg :=
  match history with
  | [] => []
  | _ =>
    match maxBodyBytes with
    | none => history
    | some maxB =>
      (trimTake history.reverse (maxB - systemPromptBytes - messageBytes)).reverse

/-- Total byte size of the retained message contents. -/
def sumBytes (l : List Msg) : Nat := (l.map (fun m => utf8Len m.content)).sum

-- ── Lemmas about the history budgeter ──────────────────────────

theorem trimTake_isPrefix (l : List Msg) (b : Nat) : trimTake l b <+: l := by
  induction l generalizing b with
  | nil => simp [trimTake]
  | cons m rest ih =>
    simp only [trimTake]
    split
    · exact List.nil_prefix
    · exact List.cons_prefix_cons.mpr ⟨rfl, ih _⟩

theorem trimTake_sumBytes (l : List Msg) (b : Nat) : sumBytes (trimTake l b) ≤ b := by
  induction l generalizing b with
  | nil => simp [trimTake, sumBytes]
  | cons m rest ih =>
    simp only [trimTake]
    split
    · simp [sumBytes]
    · rename_i h
      simp only [sumBytes, List.map_cons, List.sum_cons]
      have h' : utf8Len m.content ≤ b := by omega
      have := ih (b - utf8Len m.content)
      simp only [sumBytes] at this
      omega

theorem trimTake_mono (l : List Msg) (b₁ b₂ : Nat) (h : b₁ ≤ b₂) :
    (trimTake l b₁).length ≤ (trimTake l b₂).length := by
  induction l generalizing b₁ b₂ with
  | nil => simp [trimTake]
  | cons m rest ih =>
    simp only [trimTake]
    by_cases h1 : utf8Len m.content > b₁
    · simp [h1]
    · have h2 : ¬ utf8Len m.content > b₂ := by omega
      simp only [h1, if_neg, h2, if_false, List.length_cons]
      have := ih (b₁ - utf8Len m.content) (b₂ - utf8Len m.content) (by omega)
      simpa using Nat.succ_le_succ this

/-- C3, part of the claim: the trimmed history is a suffix of the input. -/
theorem trim_history_suffix (h : List Msg) (s m : Nat) (maxB : Option Nat) :
    trim_history h s m maxB <:+ h := by
  match h with
  | [] => simp [trim_history]
  | x :: rest =>
    match maxB with
    | none => simp [trim_history]
    | some maxB =>
      simp only [trim_history]
      have := List.reverse_suffix.mpr
        (trimTake_isPrefix ((x :: rest).reverse) (maxB - s - m))
      simpa using this

-- ── JSON data model (json.dumps / json.loads) ──────────────────

/-- JSON values.  Numbers are modelled as integers and object fields as
an association list in insertion order (Python dicts preserve it). -/
inductive Json where
  | null
  | bool (b : Bool)
  | num (n : Int)
  | str (s : List Char)
  | arr (items : List Json)
  | obj (fields : List (List Char × Json))

/-- `dict.get(key)` on a modelled object (keys of a dict are unique). -/
def getField : List (List Char × Json) → List Char → Option Json
  | [], _ => none
  | (k, v) :: rest, key => if k = key then some v else getField rest key

/-- Lower-case hex digit (as produced by `json.dumps` in `\u00xx`). -/
def hexDigitChar (n : Nat) : Char :=
  if n < 10 then Char.ofNat (48 + n) else Char.ofNat (87 + n)

/-- Escape one character inside a serialised JSON string. -/
def escChar (c : Char) : List Char :=
  if c = '"' then ['\\', '"']
  else if c = '\\' then ['\\', '\\']
  else if c = '\n' then ['\\', 'n']
  else if c = '\t' then ['\\', 't']
  else if c = '\r' then ['\\', 'r']
  else if c = '\x08' then ['\\', 'b']
  else if c = '\x0c' then ['\\', 'f']
  else if c.toNat < 32 then
    ['\\', 'u', '0', '0', hexDigitChar (c.toNat / 16), hexDigitChar (c.toNat % 16)]
  else [c]

def escStr (s : List Char) : List Char := s.flatMap escChar

def serStr (s : List Char) : List Char := '"' :: escStr s ++ ['"']

/-- Decimal digits of a natural number (`str(n)` for `n ≥ 0`). -/
def natChars (n : Nat) : List Char :=
  if h : n < 10 then [Char.ofNat (48 + n)]
  else natChars (n / 10) ++ [Char.ofNat (48 + n % 10)]
  termination_by n
  decreasing_by exact Nat.div_lt_self (by omega) (by omega)

/-- `str(i)` for a Python int. -/
def intChars (i : Int) : List Char :=
  if i < 0 then '-' :: natChars i.natAbs else natChars i.toNat

mutual
/-- Model of `json.dumps` with the default separators `", "` / `": "`. -/
def ser : Json → List Char
  | .null => chars "null"
  | .bool true => chars "true"
  | .bool false => chars "false"
  | .num n => intChars n
  | .str s => serStr s
  | .arr items => '[' :: serItems items ++ [']']
  | .obj fields => '\x7b' :: serFields fields ++ ['\x7d']
def serItems : List Json → List Char
  | [] => []
  | [x] => ser x
  | x :: y :: rest => ser x ++ ',' :: ' ' :: serItems (y :: rest)
def serFields : List (List Char × Json) → List Char
  | [] => []
  | [(k, v)] => serStr k ++ ':' :: ' ' :: ser v
  | (k, v) :: f :: rest => serStr k ++ ':' :: ' ' :: ser v ++ ',' :: ' ' :: serFields (f :: rest)
end

-- ── JSON parser (model of json.loads) ──────────────────────────

/-- Skip inter-token JSON whitespace. -/
def skipWs (s : List Char) : List Char := s.dropWhile jsonSpace

/-- Require `lit` as a literal prefix of `s`, returning the remainder. -/
def dropLit : List Char → List Char → Option (List Char)
  | [], s => some s
  | _ :: _, [] => none
  | c :: rest, x :: xs => if x = c then dropLit rest xs else none

/-- One-character short escapes accepted after a backslash. -/
def escDecode (e : Char) : Option Char :=
  if e = '"' then some '"'
  else if e = '\\' then some '\\'
  else if e = '/' then some '/'
  else if e = 'b' then some '\x08'
  else if e = 'f' then some '\x0c'
  else if e = 'n' then some '\n'
  else if e = 'r' then some '\r'
  else if e = 't' then some '\t'
  else none

def hexVal (c : Char) : Option Nat :=
  if '0' ≤ c ∧ c ≤ '9' then some (c.toNat - 48)
  else if 'a' ≤ c ∧ c ≤ 'f' then some (c.toNat - 87)
  else if 'A' ≤ c ∧ c ≤ 'F' then some (c.toNat - 55)
  else none

def hexQuad (a b c d : Char) : Option Nat :=
  match hexVal a, hexVal b, hexVal c, hexVal d with
  | some x, some y, some z, some w => some (((x * 16 + y) * 16 + z) * 16 + w)
  | _, _, _, _ => none

def surrogatePair (hi lo : Nat) : Nat :=
  0x10000 + (hi - 0xD800) * 0x400 + (lo - 0xDC00)

/-- Decode one string escape sequence (the backslash already consumed):
the decoded character and the remainder.  Surrogate pairs are combined;
lone surrogate escapes are rejected (Lean `Char` cannot hold them; no
claim depends on them). -/
def decodeEscape : List Char → Option (Char × List Char)
  | [] => none
  | e :: rest2 =>
    if e = 'u' then
      match rest2 with
      | a :: b :: c2 :: d :: rest3 =>
        match hexQuad a b c2 d with
        | none => none
        | some n =>
          if 0xD800 ≤ n ∧ n ≤ 0xDBFF then
            match rest3 with
            | s1 :: s2 :: a2 :: b2 :: c3 :: d2 :: rest5 =>
              if s1 = '\\' ∧ s2 = 'u' then
                match hexQuad a2 b2 c3 d2 with
                | some n2 =>
                  if 0xDC00 ≤ n2 ∧ n2 ≤ 0xDFFF then
                    some (Char.ofNat (surrogatePair n n2), rest5)
                  else none
                | none => none
              else none
            | _ => none
          else if 0xDC00 ≤ n ∧ n ≤ 0xDFFF then none
          else some (Char.ofNat n, rest3)
      | _ => none
    else
      match escDecode e with
      | some d => some (d, rest2)
      | none => none

theorem decodeEscape_length (rest : List Char) (d : Char) (rest2 : List Char)
    (h : decodeEscape rest = some (d, rest2)) : rest2.length < rest.length := by
  match rest with
  | [] => simp [decodeEscape] at h
  | e :: r2 =>
    by_cases hu : e = 'u'
    · subst hu
      match r2 with
      | [] => simp [decodeEscape] at h
      | [x1] => simp [decodeEscape] at h
      | [x1, x2] => simp [decodeEscape] at h
      | [x1, x2, x3] => simp [decodeEscape] at h
      | a :: b :: c2 :: d2 :: rest3 =>
        simp only [decodeEscape, if_pos rfl, if_true] at h
        cases hq : hexQuad a b c2 d2 with
        | none => simp [hq] at h
        | some n =>
          simp only [hq] at h
          by_cases h1 : 0xD800 ≤ n ∧ n ≤ 0xDBFF
          · match rest3 with
            | [] => simp [if_pos h1] at h
            | [y1] => simp [if_pos h1] at h
            | [y1, y2] => simp [if_pos h1] at h
            | [y1, y2, y3] => simp [if_pos h1] at h
            | [y1, y2, y3, y4] => simp [if_pos h1] at h
            | [y1, y2, y3, y4, y5] => simp [if_pos h1] at h
            | s1 :: s2 :: a2 :: b2 :: c3 :: d3 :: rest5 =>
              simp only [if_pos h1] at h
              by_cases h2 : s1 = '\\' ∧ s2 = 'u'
              · simp only [if_pos h2] at h
                cases hq2 : hexQuad a2 b2 c3 d3 with
                | none => simp [hq2] at h
                | some n2 =>
                  simp only [hq2] at h
                  by_cases h3 : 0xDC00 ≤ n2 ∧ n2 ≤ 0xDFFF
                  · rw [if_pos h3] at h
                    simp only [Option.some.injEq, Prod.mk.injEq] at h
                    rw [← h.2]
                    simp
                    omega
                  · rw [if_neg h3] at h; simp at h
              · rw [if_neg h2] at h; simp at h
          · rw [if_neg h1] at h
            by_cases h2 : 0xDC00 ≤ n ∧ n ≤ 0xDFFF
            · rw [if_pos h2] at h; simp at h
            · rw [if_neg h2] at h
              simp only [Option.some.injEq, Prod.mk.injEq] at h
              rw [← h.2]
              simp
              omega
    · simp only [decodeEscape, if_neg hu] at h
      cases hd : escDecode e with
      | none => simp [hd] at h
      | some d2 =>
        simp only [hd] at h
        simp only [Option.some.injEq, Prod.mk.injEq] at h
        rw [← h.2]
        simp

/-- Parse a JSON string body (the opening quote already consumed). -/
def parseStr (s : List Char) : Option (List Char × List Char) :=
  match s with
  | [] => none
  | c :: rest =>
    if c = '"' then some ([], rest)
    else if c = '\\' then
      match h : decodeEscape rest with
      | some (d, rest2) => (fun p => (d :: p.1, p.2)) <$> parseStr rest2
      | none => none
    else if c.toNat < 32 then none
    else (fun p => (c :: p.1, p.2)) <$> parseStr rest
  termination_by s.length
  decreasing_by
    all_goals simp_wf
    all_goals first
      | omega
      | exact Nat.lt_succ_of_lt (decodeEscape_length _ _ _ (by assumption))

/-- Consume a run of decimal digits, accumulating their value. -/
def parseDigits : List Char → Nat → Nat × List Char
  | [], acc => (acc, [])
  | c :: rest, acc =>
    if isDig c then parseDigits rest (acc * 10 + (c.toNat - 48)) else (acc, c :: rest)

/-- Is the first character a decimal digit? -/
def headIsDig : List Char → Bool
  | d :: _ => isDig d
  | [] => false

/-- Does the remainder continue as a float (fraction or exponent)? -/
def headIsNumCont : List Char → Bool
  | x :: _ => x = '.' || x = 'e' || x = 'E'
  | [] => false

/-- Parse the digit run of a JSON number, after the optional sign.
Leading zeros are rejected per the JSON grammar; fractional and
exponent parts are rejected rather than parsed (numbers are modelled
as integers). -/
def parseNumBody (neg : Bool) (s1 : List Char) : Option (Json × List Char) :=
  match s1 with
  | [] => none
  | c :: rest =>
    if isDig c then
      if c = '0' ∧ headIsDig rest = true then none
      else
        match parseDigits (c :: rest) 0 with
        | (n, r) =>
          if headIsNumCont r then none
          else some (.num (if neg then -(n : Int) else (n : Int)), r)
    else none

/-- Parse a JSON number: optional minus sign, then the digit run. -/
def parseNum (s : List Char) : Option (Json × List Char) :=
  match s with
  | '-' :: t => parseNumBody true t
  | _ => parseNumBody false s

mutual
/-- Parse one JSON value (fuel-indexed recursion). -/
def parseVal : Nat → List Char → Option (Json × List Char)
  | 0, _ => none
  | fuel + 1, s =>
    match skipWs s with
    | [] => none
    | c :: rest =>
      if c = '\x7b' then
        match skipWs rest with
        | '\x7d' :: r => some (.obj [], r)
        | _ =>
          match parseObjItems fuel rest with
          | some (fs, r) => some (.obj fs, r)
          | none => none
      else if c = '[' then
        match skipWs rest with
        | ']' :: r => some (.arr [], r)
        | _ =>
          match parseArrItems fuel rest with
          | some (xs, r) => some (.arr xs, r)
          | none => none
      else if c = '"' then
        match parseStr rest with
        | some (cs, r) => some (.str cs, r)
        | none => none
      else if c = 'n' then
        match dropLit (chars "ull") rest with
        | some r => some (.null, r)
        | none => none
      else if c = 't' then
        match dropLit (chars "rue") rest with
        | some r => some (.bool true, r)
        | none => none
      else if c = 'f' then
        match dropLit (chars "alse") rest with
        | some r => some (.bool false, r)
        | none => none
      else if c = '-' || isDig c then parseNum (c :: rest)
      else none
/-- Parse the element list of a non-empty JSON array. -/
def parseArrItems : Nat → List Char → Option (List Json × List Char)
  | 0, _ => none
  | fuel + 1, s =>
    match parseVal fuel s with
    | none => none
    | some (v, r1) =>
      match skipWs r1 with
      | ',' :: r2 =>
        match parseArrItems fuel r2 with
        | some (xs, r3) => some (v :: xs, r3)
        | none => none
      | ']' :: r2 => some ([v], r2)
      | _ => none
/-- Parse the member list of a non-empty JSON object. -/
def parseObjItems : Nat → List Char → Option (List (List Char × Json) × List Char)
  | 0, _ => none
  | fuel + 1, s =>
    match skipWs s with
    | '"' :: rest =>
      match parseStr rest with
      | none => none
      | some (k, r1) =>
        match skipWs r1 with
        | ':' :: r2 =>
          match parseVal fuel r2 with
          | none => none
          | some (v, r3) =>
            match skipWs r3 with
            | ',' :: r4 =>
              match parseObjItems fuel r4 with
              | some (fs, r5) => some ((k, v) :: fs, r5)
              | none => none
            | '\x7d' :: r4 => some ([(k, v)], r4)
            | _ => none
        | _ => none
    | _ => none
end

/-- Model of `json.loads`: parse one value, allow surrounding
whitespace, reject trailing garbage. -/
def jsonLoads (s : List Char) : Option Json :=
  match parseVal (s.length + 1) s with
  | some (v, rest) => if skipWs rest = [] then some v else none
  | none => none

/-- `json.loads` plus the `isinstance(result, dict)` check used by
every stage of `parse_llm_json`. -/
def jsonLoadsDict (s : List Char) : Option (List (List Char × Json)) :=
  match jsonLoads s with
  | some (.obj fields) => some fields
  | _ => none

-- ── _extract_json_object and parse_llm_json ────────────────────

/-- The brace-counting loop of `_extract_json_object`, with the scanned
prefix accumulated in reverse. -/
def braceScan : List Char → Nat → Bool → Bool → List Char → Option (List Char)
  | [], _, _, _, _ => none
  | ch :: rest, depth, inStr, esc, acc =>
    if esc then braceScan rest depth inStr false (ch :: acc)
    else if ch = '\\' then braceScan rest depth inStr inStr (ch :: acc)
    else if ch = '"' then braceScan rest depth (!inStr) false (ch :: acc)
    else if inStr then braceScan rest depth inStr false (ch :: acc)
    else if ch = '\x7b' then braceScan rest (depth + 1) inStr false (ch :: acc)
    else if ch = '\x7d' then
      if depth = 1 then some (ch :: acc).reverse
      else braceScan rest (depth - 1) inStr false (ch :: acc)
    else braceScan rest depth inStr false (ch :: acc)

/-- Model of `_extract_json_object`: scan from the first `{`, tracking
nesting depth and string state, to the matching outermost `}`. -/
def extract_json_object (text : List Char) : Option (List Char) :=
  match text.dropWhile (fun c => c ≠ '\x7b') with
  | [] => none
  | t => braceScan t 0 false false []

/-- Model of the greedy fallback `re.search(r"\{[\s\S]*\}", content)`:
from the first `{` through the last `}` after it. -/
def regexBraceSpan (s : List Char) : Option (List Char) :=
  match s.dropWhile (fun c => c ≠ '\x7b') with
  | [] => none
  | t =>
    let u := List.rdropWhile (fun c => c ≠ '\x7d') t
    if u = [] then none else some u

/-- Zero-width / BOM characters stripped by `parse_llm_json`. -/
def bomChar (c : Char) : Bool :=
  c = '﻿' || c = '​' || c = '‌' || c = '‍' || c = '⁠'

/-- `re.sub(r"^```\w*\s*", "", s)` for `s` starting with a fence. -/
def stripFencesLead (s : List Char) : List Char :=
  ((s.drop 3).dropWhile pyWordChar).dropWhile pySpace

/-- `re.sub(r"\s*```\s*$", "", s)`: drop a trailing fence (and the
whitespace around it) when the string ends in one. -/
def stripFencesTrail (s : List Char) : List Char :=
  let u := List.rdropWhile pySpace s
  if (chars "```").isSuffixOf u then
    List.rdropWhile pySpace (u.take (u.length - 3))
  else s

/-- The cleaning steps of `parse_llm_json`: outer strip, fence removal
(when the text starts with a fence), BOM / zero-width strip. -/
def cleanContent (raw : List Char) : List Char :=
  let c0 := pyStripList raw
  let c1 := if (chars "```").isPrefixOf c0
            then pyStripList (stripFencesTrail (stripFencesLead c0))
            else c0
  c1.dropWhile bomChar

/-- Model of `parse_llm_json`: clean, direct parse, brace-count
extraction, greedy regex extraction, degraded `{"text": content}`. -/
def parse_llm_json (raw : List Char) : List (List Char × Json) :=
  let content := cleanContent raw
  match jsonLoadsDict content with
  | some fields => fields
  | none =>
    match (extract_json_object content).bind jsonLoadsDict with
    | some fields => fields
    | none =>
      match (regexBraceSpan content).bind jsonLoadsDict with
      | some fields => fields
      | none => [(chars "text", Json.str content)]

-- ── C8: tool gate resolution ───────────────────────────────────

/-- C8: the effective gate is the environment lock when set, else the
caller's per-request toggle (the `default` parameter of the source is
never reachable because the toggle is always supplied); in particular a
force-off lock beats a caller-requested enable. -/
theorem resolve_tool_spec :
    (∀ (v user d : Bool), resolve_tool (some v) user d = v) ∧
    (∀ (user d : Bool), resolve_tool none user d = user) ∧
    (∀ (d : Bool), resolve_tool (some false) true d = false) :=
  ⟨fun _ _ _ => rfl, fun _ _ => rfl, fun _ => rfl⟩

-- ── C3: history budgeter properties ────────────────────────────

theorem trimTake_stop (l : List Msg) (b : Nat) :
    ∀ nxt, (l.drop (trimTake l b).length).head? = some nxt →
      b < sumBytes (trimTake l b) + utf8Len nxt.content := by
  induction l generalizing b with
  | nil => intro nxt h; simp [trimTake] at h
  | cons m rest ih =>
    intro nxt h
    simp only [trimTake] at h ⊢
    by_cases h1 : utf8Len m.content > b
    · rw [if_pos h1] at h ⊢
      simp only [List.length_nil, List.drop_zero, List.head?_cons,
        Option.some.injEq] at h
      subst h
      simp only [sumBytes, List.map_nil, List.sum_nil, Nat.zero_add]
      exact h1
    · rw [if_neg h1] at h ⊢
      simp only [List.length_cons, List.drop_succ_cons] at h
      have := ih (b - utf8Len m.content) nxt h
      simp only [sumBytes, List.map_cons, List.sum_cons] at this ⊢
      omega

theorem sumBytes_reverse (l : List Msg) : sumBytes l.reverse = sumBytes l := by
  simp [sumBytes, List.map_reverse, List.sum_reverse]

/-- C3: with an unset budget the history is returned unchanged; with a
budget set, the result is a suffix (by recency) of the input, its byte
total stays within `maxBodyBytes` minus the two reserved byte counts,
the walk stops at the first (newest-first) message that would overflow,
and increasing the budget never decreases the number of retained turns. -/
theorem trim_history_spec (h : List Msg) (s m : Nat) :
    (trim_history h s m none = h) ∧
    (∀ maxB, trim_history h s m (some maxB) <:+ h) ∧
    (∀ maxB, sumBytes (trim_history h s m (some maxB)) ≤ maxB - s - m) ∧
    (∀ maxB nxt,
      (h.reverse.drop (trim_history h s m (some maxB)).length).head? = some nxt →
      maxB - s - m < sumBytes (trim_history h s m (some maxB)) + utf8Len nxt.content) ∧
    (∀ b₁ b₂, b₁ ≤ b₂ →
      (trim_history h s m (some b₁)).length ≤ (trim_history h s m (some b₂)).length) := by
  refine ⟨?_, ?_, ?_, ?_, ?_⟩
  · match h with
    | [] => rfl
    | _ :: _ => rfl
  · intro maxB; exact trim_history_suffix h s m (some maxB)
  · intro maxB
    match h with
    | [] => simp [trim_history, sumBytes]
    | x :: rest =>
      simp only [trim_history, sumBytes_reverse]
      exact trimTake_sumBytes _ _
  · intro maxB nxt hh
    match h with
    | [] => simp at hh
    | x :: rest =>
      simp only [trim_history, List.length_reverse] at hh ⊢
      rw [sumBytes_reverse]
      exact trimTake_stop ((x :: rest).reverse) (maxB - s - m) nxt hh
  · intro b₁ b₂ hb
    match h with
    | [] => simp [trim_history]
    | x :: rest =>
      simp only [trim_history, List.length_reverse]
      exact trimTake_mono _ _ _ (by omega)

/-- Witness for `trim_history_spec` at a concrete two-turn history with
byte budget 5: the newest turn (4 bytes) is kept, the older one (2 bytes)
would overflow and is dropped. -/
theorem trim_history_spec_witness :
    (trim_history [Msg.mk (chars "user") (chars "aa"),
        Msg.mk (chars "assistant") (chars "bbbb")] 0 0 none =
      [Msg.mk (chars "user") (chars "aa"), Msg.mk (chars "assistant") (chars "bbbb")]) ∧
    (trim_history [Msg.mk (chars "user") (chars "aa"),
        Msg.mk (chars "assistant") (chars "bbbb")] 0 0 (some 5) <:+
      [Msg.mk (chars "user") (chars "aa"), Msg.mk (chars "assistant") (chars "bbbb")]) ∧
    (sumBytes (trim_history [Msg.mk (chars "user") (chars "aa"),
        Msg.mk (chars "assistant") (chars "bbbb")] 0 0 (some 5)) ≤ 5 - 0 - 0) ∧
    (5 - 0 - 0 < sumBytes (trim_history [Msg.mk (chars "user") (chars "aa"),
        Msg.mk (chars "assistant") (chars "bbbb")] 0 0 (some 5))
        + utf8Len (Msg.mk (chars "user") (chars "aa")).content) ∧
    ((trim_history [Msg.mk (chars "user") (chars "aa"),
        Msg.mk (chars "assistant") (chars "bbbb")] 0 0 (some 5)).length ≤
      (trim_history [Msg.mk (chars "user") (chars "aa"),
        Msg.mk (chars "assistant") (chars "bbbb")] 0 0 (some 7)).length) := by
  obtain ⟨h1, h2, h3, h4, h5⟩ :=
    trim_history_spec [Msg.mk (chars "user") (chars "aa"),
      Msg.mk (chars "assistant") (chars "bbbb")] 0 0
  exact ⟨h1, h2 5, h3 5, h4 5 (Msg.mk (chars "user") (chars "aa")) (by rfl),
    h5 5 7 (by omega)⟩

-- ── Refusal detection and retry (C5) ───────────────────────────

/-- An apostrophe, kept out of string literals. -/
def apos : Char := Char.ofNat 39

/-- The fixed refusal phrase list `_REFUSAL_PHRASES`. -/
def REFUSAL_PHRASES : List (List Char) := [
  chars "not available",
  chars "not yet available",
  chars "cannot provide",
  chars "don" ++ [apos] ++ chars "t have access",
  chars "no data available",
  chars "data is unavailable",
  chars "please refer to",
  chars "please consult",
  chars "consult financial",
  chars "check a financial",
  chars "unable to provide",
  chars "i can" ++ [apos] ++ chars "t provide",
  chars "i cannot access"
]

/-- `(parsed.get(key) or "")` for a string-valued field. -/
def jsonStrOrEmpty : Option Json → List Char
  | some (.str s) => s
  | _ => []

/-- `(parsed.get("a2ui") or \x7b\x7d).get("components") or []`. -/
def componentsOf (parsed : List (List Char × Json)) : List Json :=
  match getField parsed (chars "a2ui") with
  | some (.obj af) =>
    match getField af (chars "components") with
    | some (.arr l) => l
    | _ => []
  | _ => []

/-- Model of `_is_refusal`: a refusal phrase in the lowered `text`, or a
single `alert` component whose description carries one. -/
def is_refusal (parsed : List (List Char × Json)) : Bool :=
  let text := toLowerList (jsonStrOrEmpty (getField parsed (chars "text")))
  if REFUSAL_PHRASES.any (fun p => containsSub text p) then true
  else
    match componentsOf parsed with
    | [Json.obj cf] =>
      (match getField cf (chars "type") with
       | some (.str t) => t = chars "alert"
       | _ => False) &&
      (let desc := toLowerList (jsonStrOrEmpty
          (match getField cf (chars "props") with
           | some (.obj pf) => getField pf (chars "description")
           | _ => none))
       REFUSAL_PHRASES.any (fun p => containsSub desc p))
    | _ => false

/-- The override nudge prefix used by `_retry_on_refusal`. -/
def REFUSAL_NUDGE : List Char :=
  chars "IMPORTANT: Do NOT say data is unavailable. You MUST provide approximate values from your training knowledge. Use a data-table and chart with your best estimates, and add an info alert noting the data is approximate. Original question: "

/-- Model of `_retry_on_refusal(result, message, generate_fn)`. -/
def retry_on_refusal (result : List (List Char × Json)) (message : List Char)
    (generate_fn : List Char → Option (List Msg) → List (List Char × Json)) :
    List (List Char × Json) :=
  if is_refusal result then generate_fn (REFUSAL_NUDGE ++ message) none
  else result

/-- Model of a provider `generate`: one `_call_llm`, then the shared
refusal guard (`call` is the provider's `_call_llm` with model and
system prompt fixed). -/
def generate (call : List Char → Option (List Msg) → List (List Char × Json))
    (message : List Char) (history : Option (List Msg)) :
    List (List Char × Json) :=
  retry_on_refusal (call message history) message (fun msg hist => call msg hist)

/-- The sequence of `_call_llm` invocations `generate` performs, as
(message, history) pairs. -/
def generateAttempts
    (call : List Char → Option (List Msg) → List (List Char × Json))
    (message : List Char) (history : Option (List Msg)) :
    List (List Char × Option (List Msg)) :=
  if is_refusal (call message history) then
    [(message, history), (REFUSAL_NUDGE ++ message, none)]
  else [(message, history)]

/-- C5: on a refusal, `generate` re-invokes the call exactly once, with
the nudge-prefixed original message and no history; the retry result is
returned as-is even if it is again a refusal; there are never more than
two attempts. -/
theorem refusal_retry_spec
    (call : List Char → Option (List Msg) → List (List Char × Json))
    (message : List Char) (history : Option (List Msg)) :
    (generateAttempts call message history).length ≤ 2 ∧
    (is_refusal (call message history) = true →
      generateAttempts call message history =
        [(message, history), (REFUSAL_NUDGE ++ message, none)] ∧
      generate call message history = call (REFUSAL_NUDGE ++ message) none) ∧
    (is_refusal (call message history) = false →
      generateAttempts call message history = [(message, history)] ∧
      generate call message history = call message history) := by
  by_cases hr : is_refusal (call message history) = true
  · refine ⟨?_, fun _ => ⟨?_, ?_⟩, fun hf => absurd hr (by simp [hf])⟩
    · simp [generateAttempts, hr]
    · simp [generateAttempts, hr]
    · simp [generate, retry_on_refusal, hr]
  · have hr' : is_refusal (call message history) = false := by
      simpa using hr
    refine ⟨?_, fun ht => absurd ht hr, fun _ => ⟨?_, ?_⟩⟩
    · simp [generateAttempts, hr']
    · simp [generateAttempts, hr']
    · simp [generate, retry_on_refusal, hr']

/-- Witness for `refusal_retry_spec`: a provider that always answers
with a refusal phrase leads to exactly the two prescribed attempts. -/
theorem refusal_retry_spec_witness :
    generateAttempts
      (fun _ _ => [(chars "text", Json.str (chars "data is unavailable"))])
      (chars "q") none =
      [(chars "q", none), (REFUSAL_NUDGE ++ chars "q", none)] ∧
    generate
      (fun _ _ => [(chars "text", Json.str (chars "data is unavailable"))])
      (chars "q") none =
      [(chars "text", Json.str (chars "data is unavailable"))] := by
  have h := (refusal_retry_spec
    (fun _ _ => [(chars "text", Json.str (chars "data is unavailable"))])
    (chars "q") none).2.1 (by decide)
  exact ⟨h.1, h.2⟩

-- ── Error message cleaning and error responses (C9) ────────────

theorem dropWhile_length_le {α : Type} (p : α → Bool) (l : List α) :
    (l.dropWhile p).length ≤ l.length := by
  induction l with
  | nil => simp
  | cons x xs ih =>
    rw [List.dropWhile_cons]
    split
    · exact Nat.le_succ_of_le ih
    · simp

/-- Locate the end of an HTML tag: the remainder after the first `>`
of `rest`, provided one exists. -/
def splitTag (rest : List Char) : Option (List Char) :=
  match rest.dropWhile (fun x => x ≠ '>') with
  | _ :: after2 => some after2
  | [] => none

theorem splitTag_length (rest : List Char) (a : List Char)
    (h : splitTag rest = some a) : a.length < rest.length := by
  unfold splitTag at h
  have hd := dropWhile_length_le (fun x => x ≠ '>') rest
  cases hh : rest.dropWhile (fun x => x ≠ '>') with
  | nil => rw [hh] at h; simp at h
  | cons y ys =>
    rw [hh] at h hd
    simp only [Option.some.injEq] at h
    subst h
    simp only [List.length_cons] at hd
    by_cases hr : rest = []
    · subst hr; simp at hh
    · have : 0 < rest.length := List.length_pos.mpr hr
      omega

/-- Model of `re.sub(r"<[^>]+>", " ", raw)`: each HTML tag (a `<`, one
or more non-`>` characters, then `>`) becomes a single space; a `<`
that starts no tag (next character `>`, or no closing `>`) is kept. -/
def stripTags (s : List Char) : List Char :=
  match s with
  | [] => []
  | c :: rest =>
    if c = '<' ∧ rest.head? ≠ some '>' then
      match _h : splitTag rest with
      | some after2 => ' ' :: stripTags after2
      | none => c :: stripTags rest
    else c :: stripTags rest
  termination_by s.length
  decreasing_by
    all_goals simp_wf
    all_goals first
      | omega
      | exact Nat.lt_succ_of_lt (splitTag_length _ _ (by assumption))

/-- Model of `re.sub(r"\s+", " ", s)`: collapse whitespace runs. -/
def collapseWs (s : List Char) : List Char :=
  match s with
  | [] => []
  | c :: rest =>
    if pySpace c then ' ' :: collapseWs (rest.dropWhile pySpace)
    else c :: collapseWs rest
  termination_by s.length
  decreasing_by
    all_goals simp_wf
    all_goals first
      | omega
      | exact Nat.lt_succ_of_le (dropWhile_length_le _ _)

/-- Model of `_clean_error_message`: strip tags and collapse whitespace
only when the text looks like an HTML page; otherwise pass it through
unchanged. -/
def clean_error_message (raw : List Char) : List Char :=
  if containsSub (toLowerList raw) (chars "<html")
      || containsSub (toLowerList raw) (chars "<body") then
    let text := pyStripList (collapseWs (stripTags raw))
    if text = [] then chars "Unknown error" else text
  else raw

/-- Model of `_error_response(title, description, variant)`. -/
def error_response (title description : List Char)
    (variant : List Char := chars "error") : Json :=
  let d := clean_error_message description
  Json.obj [
    (chars "text", .str (title ++ chars ": " ++ d)),
    (chars "a2ui", .obj [
      (chars "version", .str (chars "1.0")),
      (chars "components", .arr [
        .obj [
          (chars "id", .str (chars "error")),
          (chars "type", .str (chars "alert")),
          (chars "props", .obj [
            (chars "variant", .str variant),
            (chars "title", .str title),
            (chars "description", .str d)
          ])
        ]
      ])
    ])
  ]

/-- Operational failures caught by `OpenAIProvider._call_llm`. -/
inductive OpenAIFailure | timeout | apiError | emptyContent

/-- The error payloads of `OpenAIProvider._call_llm`. -/
def openaiFailureResponse : OpenAIFailure → Json
  | .timeout => error_response (chars "Request Timeout")
      (chars "The model took too long to respond. Try again or switch to a faster model.")
      (chars "warning")
  | .apiError => error_response (chars "Something Went Wrong")
      (chars "The AI service returned an error. Please try again in a moment.")
  | .emptyContent => error_response (chars "Empty Response")
      (chars "The AI returned an empty response. Please try again or switch models.")
      (chars "warning")

/-- Operational failures caught by `AnthropicProvider._call_llm`. -/
inductive AnthropicFailure | timeout | apiError | emptyContent

/-- The error payloads of `AnthropicProvider._call_llm`. -/
def anthropicFailureResponse : AnthropicFailure → Json
  | .timeout => error_response (chars "Request Timeout")
      (chars "The model took too long to respond. Try again or switch to a faster model.")
      (chars "warning")
  | .apiError => error_response (chars "Something Went Wrong")
      (chars "The AI service returned an error. Please try again in a moment.")
  | .emptyContent => error_response (chars "Empty Response")
      (chars "The AI returned an empty response. Please try again or switch models.")
      (chars "warning")

/-- Operational failures caught by `LiteLLMProvider._call_llm`. -/
inductive LiteLLMFailure
  | auth | permission | notFound | rateLimit | timeout | apiError
  | noChoices | emptyContent

/-- The error payloads of `LiteLLMProvider._call_llm` (the permission
and not-found texts interpolate the model id). -/
def litellmFailureResponse (model : List Char) : LiteLLMFailure → Json
  | .auth => error_response (chars "Authentication Error")
      (chars "Your Exploration Lab API key is invalid or expired. Please check LITELLM_API_KEY.")
  | .permission => error_response (chars "Access Denied")
      (chars "The model " ++ [apos] ++ model ++ [apos]
        ++ chars " is not available on the Exploration Lab gateway. Try a different model, or check that you"
        ++ [apos] ++ chars "re on the corporate network/VPN.")
  | .notFound => error_response (chars "Model Not Found")
      (chars "The model " ++ [apos] ++ model ++ [apos]
        ++ chars " was not found on the Exploration Lab gateway. Try a different model.")
  | .rateLimit => error_response (chars "Rate Limited")
      (chars "Too many requests. Please wait a moment and try again.")
      (chars "warning")
  | .timeout => error_response (chars "Request Timeout")
      (chars "The model took too long to respond. Try again or switch to a faster model.")
      (chars "warning")
  | .apiError => error_response (chars "Something Went Wrong")
      (chars "The AI service returned an error. Please try again in a moment.")
  | .noChoices => error_response (chars "Empty Response")
      (chars "The gateway returned no choices. Please try again or switch models.")
      (chars "warning")
  | .emptyContent => error_response (chars "Empty Response")
      (chars "The AI returned an empty response. Please try again or switch models.")
      (chars "warning")

/-- Operational failures of `GeminiProvider._call_llm`: every API
exception is caught uniformly, carrying `str(exc)`. -/
inductive GeminiFailure
  | apiException (excText : List Char)
  | emptyContent

/-- The error payloads of `GeminiProvider._call_llm`. -/
def geminiFailureResponse : GeminiFailure → Json
  | .apiException t => error_response (chars "Gemini Error") t
  | .emptyContent => error_response (chars "Empty Response")
      (chars "The AI returned an empty response. Please try again or switch models.")
      (chars "warning")

/-- The `a2ui.components` list of a response value. -/
def responseComponents (r : Json) : List Json :=
  match r with
  | .obj fields => componentsOf fields
  | _ => []

/-- The `type` of a component. -/
def componentType (c : Json) : Option (List Char) :=
  match c with
  | .obj cf =>
    match getField cf (chars "type") with
    | some (.str t) => some t
    | _ => none
  | _ => none

/-- The `props.variant` of a component. -/
def alertVariant (c : Json) : Option (List Char) :=
  match c with
  | .obj cf =>
    match getField cf (chars "props") with
    | some (.obj pf) =>
      match getField pf (chars "variant") with
      | some (.str v) => some v
      | _ => none
    | _ => none
  | _ => none

/-- The `props.description` of a component. -/
def alertDescription (c : Json) : Option (List Char) :=
  match c with
  | .obj cf =>
    match getField cf (chars "props") with
    | some (.obj pf) =>
      match getField pf (chars "description") with
      | some (.str v) => some v
      | _ => none
    | _ => none
  | _ => none

/-- C9 counterexample: a Gemini API exception with a plain-text message
(here a gateway timeout) produces an alert whose description is the raw
exception text verbatim, with severity `error` rather than `warning`. -/
theorem provider_error_verbatim_counterexample :
    (responseComponents (geminiFailureResponse
        (.apiException (chars "504 Deadline Exceeded")))).map alertDescription
      = [some (chars "504 Deadline Exceeded")] ∧
    (responseComponents (geminiFailureResponse
        (.apiException (chars "504 Deadline Exceeded")))).map alertVariant
      = [some (chars "error")] := by
  exact ⟨rfl, rfl⟩

unseal stripTags collapseWs in
/-- C9 amended: every operational failure maps to a response whose only
component is an alert; the OpenAI / Anthropic / LiteLLM descriptions are
fixed user-safe strings and their timeout / rate-limit / empty cases are
warning severity; the Gemini adapter forwards the exception text through
HTML stripping only, so HTML-bearing error bodies are reduced to plain
text but plain-text exception messages are shown verbatim, always with
error severity. -/
theorem provider_error_responses_spec :
    (∀ f : OpenAIFailure,
      (responseComponents (openaiFailureResponse f)).map componentType
        = [some (chars "alert")]) ∧
    (∀ f : AnthropicFailure,
      (responseComponents (anthropicFailureResponse f)).map componentType
        = [some (chars "alert")]) ∧
    (∀ (model : List Char) (f : LiteLLMFailure),
      (responseComponents (litellmFailureResponse model f)).map componentType
        = [some (chars "alert")]) ∧
    (∀ t, (responseComponents (geminiFailureResponse (.apiException t))).map componentType
        = [some (chars "alert")]) ∧
    ((responseComponents (openaiFailureResponse .timeout)).map alertVariant
        = [some (chars "warning")]) ∧
    ((responseComponents (anthropicFailureResponse .timeout)).map alertVariant
        = [some (chars "warning")]) ∧
    (∀ model, (responseComponents (litellmFailureResponse model .timeout)).map alertVariant
        = [some (chars "warning")]) ∧
    (∀ model, (responseComponents (litellmFailureResponse model .rateLimit)).map alertVariant
        = [some (chars "warning")]) ∧
    ((responseComponents (openaiFailureResponse .emptyContent)).map alertVariant
        = [some (chars "warning")]) ∧
    (∀ t, (responseComponents (geminiFailureResponse (.apiException t))).map alertDescription
        = [some (clean_error_message t)]) ∧
    (clean_error_message (chars "<html><body>Bad gateway</body></html>")
        = chars "Bad gateway") := by
  refine ⟨?_, ?_, ?_, ?_, rfl, rfl, ?_, ?_, rfl, ?_, by decide⟩
  · intro f; cases f <;> rfl
  · intro f; cases f <;> rfl
  · intro model f; cases f <;> rfl
  · intro t; rfl
  · intro model; rfl
  · intro model; rfl
  · intro t; rfl

-- ── Visual hierarchy enforcement (C4) ──────────────────────────

/-- `isinstance(c, dict)` for a component entry. -/
def isDictJson : Json → Bool
  | .obj _ => true
  | _ => false

/-- The `_rank` key of `_enforce_visual_hierarchy`:
`priority.index(component.get("type", ""))`, with `len(priority)` when
the lookup raises `ValueError` (type unlisted or not a string).
`List.indexOf` returns the length exactly when the element is absent. -/
def rank (priority : List (List Char)) (c : Json) : Nat :=
  match c with
  | .obj cf =>
    match getField cf (chars "type") with
    | some (.str t) => priority.indexOf t
    | some _ => priority.length
    | none => priority.indexOf ([] : List Char)
  | _ => priority.indexOf ([] : List Char)

/-- Boolean comparison used for the stable sort by rank. -/
def rankLE (priority : List (List Char)) (a b : Json) : Bool :=
  rank priority a ≤ rank priority b

/-- `d[key] = v` on a modelled dict: replace the first binding of the
key in place, append when absent. -/
def setField : List (List Char × Json) → List Char → Json → List (List Char × Json)
  | [], k, v => [(k, v)]
  | (k', v') :: rest, k, v =>
    if k' = k then (k, v) :: rest else (k', v') :: setField rest k v

/-- Model of `_enforce_visual_hierarchy(result, priority)`.  Python's
`list.sort(key=_rank)` is a stable sort, modelled by the stable
`List.mergeSort` on the rank comparison. -/
def enforce_visual_hierarchy (result : Json) (priority : Option (List (List Char))) : Json :=
  match priority with
  | none => result
  | some p =>
    match result with
    | .obj rfields =>
      match getField rfields (chars "a2ui") with
      | some (.obj []) => result
      | some (.obj afields) =>
        match getField afields (chars "components") with
        | some (.arr comps) =>
          if comps.length < 2 then result
          else
            let dictComps := comps.filter isDictJson
            if dictComps.length < 2 then result
            else
              Json.obj (setField rfields (chars "a2ui")
                (Json.obj (setField afields (chars "components")
                  (Json.arr (dictComps.mergeSort (rankLE p))))))
        | _ => result
      | _ => result
    | _ => result

theorem getField_setField (fs : List (List Char × Json)) (k : List Char) (v : Json) :
    getField (setField fs k v) k = some v := by
  induction fs with
  | nil => simp [setField, getField]
  | cons kv rest ih =>
    obtain ⟨k', v'⟩ := kv
    simp only [setField]
    split
    · simp [getField]
    · rename_i hne
      simp [getField, hne, ih]

theorem rankLE_trans (p : List (List Char)) :
    ∀ a b c, rankLE p a b = true → rankLE p b c = true → rankLE p a c = true := by
  intro a b c h1 h2
  simp only [rankLE, decide_eq_true_eq] at h1 h2 ⊢
  omega

theorem rankLE_total (p : List (List Char)) :
    ∀ a b, (rankLE p a b || rankLE p b a) = true := by
  intro a b
  simp only [rankLE, Bool.or_eq_true, decide_eq_true_eq]
  omega

/-- C4: reordering `a2ui.components` is a stable sort keyed by the
type's position in the priority list — the output is a permutation of
the object-typed entries (non-objects are filtered out), sorted by
rank, order-preserving on rank ties (including entries of unlisted
types, which all rank `priority.length` and so sort after every listed
type), and the operation is a no-op when fewer than two components (or
fewer than two object components) are present. -/
theorem enforce_visual_hierarchy_spec
    (p : List (List Char)) (rfields afields : List (List Char × Json))
    (comps : List Json)
    (ha : getField rfields (chars "a2ui") = some (.obj afields))
    (hc : getField afields (chars "components") = some (.arr comps)) :
    (comps.length < 2 →
      enforce_visual_hierarchy (.obj rfields) (some p) = .obj rfields) ∧
    ((comps.filter isDictJson).length < 2 →
      enforce_visual_hierarchy (.obj rfields) (some p) = .obj rfields) ∧
    (2 ≤ (comps.filter isDictJson).length →
      responseComponents (enforce_visual_hierarchy (.obj rfields) (some p))
        = (comps.filter isDictJson).mergeSort (rankLE p) ∧
      ((comps.filter isDictJson).mergeSort (rankLE p)).Perm
        (comps.filter isDictJson) ∧
      List.Pairwise (fun a b => rank p a ≤ rank p b)
        ((comps.filter isDictJson).mergeSort (rankLE p)) ∧
      (∀ a b, ([a, b]).Sublist (comps.filter isDictJson) → rank p a ≤ rank p b →
        ([a, b]).Sublist ((comps.filter isDictJson).mergeSort (rankLE p))) ∧
      (∀ a b, ([a, b]).Sublist ((comps.filter isDictJson).mergeSort (rankLE p)) →
        rank p b < p.length → rank p a < p.length)) := by
  have hafne : afields ≠ [] := by
    intro he; rw [he] at hc; simp [getField] at hc
  refine ⟨?_, ?_, ?_⟩
  · intro hlen
    have hflen : (comps.filter isDictJson).length < 2 :=
      lt_of_le_of_lt (List.length_filter_le _ _) hlen
    match hae : afields, hafne with
    | af1 :: afrest, _ =>
      simp only [enforce_visual_hierarchy, ha, hc]
      rw [if_pos hlen]
  · intro hflen
    match hae : afields, hafne with
    | af1 :: afrest, _ =>
      simp only [enforce_visual_hierarchy, ha, hc]
      by_cases hlen : comps.length < 2
      · rw [if_pos hlen]
      · rw [if_neg hlen, if_pos hflen]
  · intro hflen
    have hlen : ¬ comps.length < 2 := by
      have := List.length_filter_le isDictJson comps
      omega
    have hflen' : ¬ (comps.filter isDictJson).length < 2 := by omega
    refine ⟨?_, List.mergeSort_perm _ _, ?_, ?_, ?_⟩
    · match hae : afields, hafne with
      | af1 :: afrest, _ =>
        simp only [enforce_visual_hierarchy, ha, hc]
        rw [if_neg hlen, if_neg hflen']
        simp only [responseComponents, componentsOf, getField_setField]
    · have hs := List.sorted_mergeSort
        (rankLE_trans p) (rankLE_total p) (comps.filter isDictJson)
      exact hs.imp (fun h => by
        simpa only [rankLE, decide_eq_true_eq] using h)
    · intro a b hsub hle
      exact List.pair_sublist_mergeSort (rankLE_trans p) (rankLE_total p)
        (by simpa only [rankLE, decide_eq_true_eq] using hle) hsub
    · intro a b hsub hbr
      have hs := List.sorted_mergeSort
        (rankLE_trans p) (rankLE_total p) (comps.filter isDictJson)
      have hab : rankLE p a b = true :=
        List.pairwise_iff_forall_sublist.mp hs hsub
      simp only [rankLE, decide_eq_true_eq] at hab
      omega

unseal List.merge List.mergeSort in
/-- Witness for `enforce_visual_hierarchy_spec` at a concrete response:
a `data-table`, a stray string entry, an `alert` and a `chart` under
priority `[chart, alert]` sort to `[chart, alert, data-table]` with the
string entry removed. -/
theorem enforce_visual_hierarchy_spec_witness :
    responseComponents (enforce_visual_hierarchy
      (Json.obj [(chars "text", Json.str (chars "t")),
        (chars "a2ui", Json.obj [(chars "version", Json.str (chars "1.0")),
          (chars "components", Json.arr
            [Json.obj [(chars "type", Json.str (chars "data-table"))],
             Json.str (chars "junk"),
             Json.obj [(chars "type", Json.str (chars "alert"))],
             Json.obj [(chars "type", Json.str (chars "chart"))]])])])
      (some [chars "chart", chars "alert"]))
      = ([Json.obj [(chars "type", Json.str (chars "data-table"))],
          Json.str (chars "junk"),
          Json.obj [(chars "type", Json.str (chars "alert"))],
          Json.obj [(chars "type", Json.str (chars "chart"))]].filter
            isDictJson).mergeSort
          (rankLE [chars "chart", chars "alert"]) ∧
    ([Json.obj [(chars "type", Json.str (chars "data-table"))],
      Json.str (chars "junk"),
      Json.obj [(chars "type", Json.str (chars "alert"))],
      Json.obj [(chars "type", Json.str (chars "chart"))]].filter
        isDictJson).mergeSort (rankLE [chars "chart", chars "alert"])
      = [Json.obj [(chars "type", Json.str (chars "chart"))],
         Json.obj [(chars "type", Json.str (chars "alert"))],
         Json.obj [(chars "type", Json.str (chars "data-table"))]] := by
  constructor
  · exact ((enforce_visual_hierarchy_spec
      [chars "chart", chars "alert"]
      [(chars "text", Json.str (chars "t")),
        (chars "a2ui", Json.obj [(chars "version", Json.str (chars "1.0")),
          (chars "components", Json.arr
            [Json.obj [(chars "type", Json.str (chars "data-table"))],
             Json.str (chars "junk"),
             Json.obj [(chars "type", Json.str (chars "alert"))],
             Json.obj [(chars "type", Json.str (chars "chart"))]])])]
      [(chars "version", Json.str (chars "1.0")),
        (chars "components", Json.arr
          [Json.obj [(chars "type", Json.str (chars "data-table"))],
           Json.str (chars "junk"),
           Json.obj [(chars "type", Json.str (chars "alert"))],
           Json.obj [(chars "type", Json.str (chars "chart"))]])]
      [Json.obj [(chars "type", Json.str (chars "data-table"))],
       Json.str (chars "junk"),
       Json.obj [(chars "type", Json.str (chars "alert"))],
       Json.obj [(chars "type", Json.str (chars "chart"))]]
      rfl rfl).2.2 (by decide)).1
  · rfl

-- ── C2: parse_llm_json degraded value ──────────────────────────

/-- C2 counterexample: when every stage fails, the degraded dict holds
the cleaned content, not the original raw input — surrounding
whitespace of `" hi "` is stripped before the fallback is built. -/
theorem parse_llm_json_fallback_counterexample :
    parse_llm_json (chars " hi ") = [(chars "text", Json.str (chars "hi"))] ∧
    chars "hi" ≠ chars " hi " := by
  exact ⟨rfl, by decide⟩

/-- C2 amended: `parse_llm_json` is a total function of the input (the
"never raises" contract), and whenever all three parsing stages fail it
returns exactly the one-field dict mapping `text` to the cleaned input
— the raw input stripped of outer whitespace, markdown fences and
BOM / zero-width characters — rather than to the raw input itself. -/
theorem parse_llm_json_fallback (raw : List Char)
    (h1 : jsonLoadsDict (cleanContent raw) = none)
    (h2 : (extract_json_object (cleanContent raw)).bind jsonLoadsDict = none)
    (h3 : (regexBraceSpan (cleanContent raw)).bind jsonLoadsDict = none) :
    parse_llm_json raw = [(chars "text", Json.str (cleanContent raw))] := by
  simp only [parse_llm_json, h1, h2, h3]

/-- Witness for `parse_llm_json_fallback` at the input `" hi "`, whose
stages all fail. -/
theorem parse_llm_json_fallback_witness :
    parse_llm_json (chars " hi ")
      = [(chars "text", Json.str (cleanContent (chars " hi ")))] :=
  parse_llm_json_fallback (chars " hi ") rfl rfl rfl

-- ── C7: performance modes (optimized) ──────────────────────────

/-- The `PERFORMANCE_MODES` table: mode id ↦ `use_llm_classifier`. -/
def PERFORMANCE_MODES : List (List Char × Bool) := [
  (chars "comprehensive", true),
  (chars "optimized", false),
  (chars "auto", true)
]

/-- Whether `generate_stream` invokes `_analyze_intent`, from the
branch structure of its analysis phase: it depends only on the
resolved AI-classifier gate and the explicit-style check — never on
`performance_mode`, because the `perf` entry looked up from
`PERFORMANCE_MODES` is computed but never read. -/
def analyzerInvoked (classifierActive : Bool)
    (contentStyle performanceMode : List Char) : Bool :=
  if contentStyle ≠ chars "auto" then classifierActive
  else if classifierActive then true
  else false

/-- The style override of `generate_stream` after the analysis phase:
`optimized` forces `quick`; `auto` with a byte budget downgrades when
the composed prompt exceeds 75% of it.  `promptBytes` abstracts
`len(get_system_prompt(style).encode("utf-8"))` (static prompt text is
out of scope); the float threshold `bytes > maxB * 0.75` is the exact
comparison `4 * bytes > 3 * maxB`.  Explicit caller styles are never
overridden. -/
def styleAfterPerfOverride (promptBytes : List Char → Nat)
    (contentStyle styleId perfMode : List Char)
    (maxBodyBytes : Option Nat) : List Char :=
  if contentStyle = chars "auto" ∧ styleId ≠ chars "quick" then
    if perfMode = chars "optimized" then chars "quick"
    else
      match maxBodyBytes with
      | some maxB =>
        if perfMode = chars "auto" ∧ 4 * promptBytes styleId > 3 * maxB then
          if 4 * promptBytes (chars "content") ≤ 3 * maxB then chars "content"
          else if 4 * promptBytes (chars "quick") ≤ 3 * maxB then chars "quick"
          else styleId
        else styleId
      | none => styleId
  else styleId

/-- C7: the `PERFORMANCE_MODES` table itself declares that `optimized`
skips the AI classifier (`use_llm_classifier = False`), yet the
pipeline still invokes the intent analyzer in optimized mode whenever
the classifier gate is active, because the looked-up `perf` entry is
never read — the "always skips the AI intent analyzer" half of the
claim fails on the code.  The cheapest-style half holds: with
`content_style` left on `auto`, the final style under `optimized` is
always `quick`. -/
theorem optimized_mode_spec :
    (PERFORMANCE_MODES.lookup (chars "optimized") = some false) ∧
    (analyzerInvoked true (chars "auto") (chars "optimized") = true) ∧
    (∀ (promptBytes : List Char → Nat) (styleId : List Char)
        (maxB : Option Nat),
      styleAfterPerfOverride promptBytes (chars "auto") styleId
        (chars "optimized") maxB = chars "quick") := by
  refine ⟨by decide, rfl, ?_⟩
  intro pb styleId maxB
  by_cases hq : styleId = chars "quick"
  · simp [styleAfterPerfOverride, hq]
  · simp [styleAfterPerfOverride, hq]

-- ── A small regex engine for the classifier rules (C10, C6) ────

/-- Regular expressions over characters: empty word, character class,
concatenation, alternation, Kleene star, and the word boundary `\b`. -/
inductive RE where
  | eps
  | ch (p : Char → Bool)
  | cat (a b : RE)
  | alt (a b : RE)
  | star (a : RE)
  | wb

/-- `\b`: exactly one side of the position is a word character. -/
def isWordBoundary (prev : Option Char) (s : List Char) : Bool :=
  let lw := match prev with | some c => pyWordChar c | none => false
  let rw := match s with | c :: _ => pyWordChar c | [] => false
  lw != rw

/-- Structural size of a regex, used to bound the matcher fuel. -/
def reSize : RE → Nat
  | .eps => 1
  | .ch _ => 1
  | .wb => 1
  | .cat a b => reSize a + reSize b + 1
  | .alt a b => reSize a + reSize b + 1
  | .star a => reSize a + 1

/-- Backtracking matcher: all ways `re` can match a prefix of `s`, as
(last consumed character, remaining suffix) pairs.  `prev` is the
character before the match position (for `\b`).  A star iteration must
consume at least one character, which keeps the match set finite. -/
def mtch : Nat → RE → Option Char → List Char → List (Option Char × List Char)
  | 0, _, _, _ => []
  | fuel + 1, re, prev, s =>
    match re with
    | .eps => [(prev, s)]
    | .ch p =>
      match s with
      | [] => []
      | c :: rest => if p c then [(some c, rest)] else []
    | .cat a b => (mtch fuel a prev s).flatMap (fun pr => mtch fuel b pr.1 pr.2)
    | .alt a b => mtch fuel a prev s ++ mtch fuel b prev s
    | .wb => if isWordBoundary prev s then [(prev, s)] else []
    | .star a =>
      (prev, s) ::
        ((mtch fuel a prev s).filter (fun pr => pr.2.length < s.length)).flatMap
          (fun pr => mtch fuel (.star a) pr.1 pr.2)

/-- Can `re` match starting exactly at this position? -/
def matchesAt (re : RE) (prev : Option Char) (s : List Char) : Bool :=
  !((mtch ((reSize re + 1) * (s.length + 2)) re prev s).isEmpty)

/-- `re.search` from a given position onwards. -/
def searchFrom (re : RE) : Option Char → List Char → Bool
  | prev, s =>
    if matchesAt re prev s then true
    else
      match s with
      | [] => false
      | c :: rest => searchFrom re (some c) rest

/-- Model of `pattern.search(s)` as a Boolean. -/
def reSearch (re : RE) (s : List Char) : Bool := searchFrom re none s

/-- A literal string pattern. -/
def lit (s : String) : RE :=
  s.data.foldr (fun c r => RE.cat (.ch (fun x => x = c)) r) RE.eps

/-- Alternation of a pattern list. -/
def anyOf (rs : List RE) : RE :=
  match rs with
  | [] => .ch (fun _ => false)
  | [r] => r
  | r :: rest => .alt r (anyOf rest)

/-- `r?`. -/
def reOpt (r : RE) : RE := .alt r .eps

/-- `r+`. -/
def rePlus (r : RE) : RE := .cat r (.star r)

/-- `\s*`. -/
def ws0 : RE := .star (.ch pySpace)

/-- `\s+`. -/
def ws1 : RE := rePlus (.ch pySpace)

/-- `\d+`. -/
def dig1 : RE := rePlus (.ch isDig)

/-- `.` (any character but newline; `re.DOTALL` is not set). -/
def anyc : RE := .ch (fun c => c ≠ '\n')

/-- `\b(?:r)\b`. -/
def wrapWb (r : RE) : RE := .cat .wb (.cat r .wb)

-- ── The classifier rule regexes (content_styles/__init__.py) ───

/-- Rule 1 — financial / analytical signals (`re.IGNORECASE`; matched on
the lowered message). -/
def reFinancial : RE := wrapWb (anyOf [
  .cat (lit "stock") (reOpt (lit "s")),
  lit "ticker",
  .cat (lit "share") (.cat ws0 (lit "price")),
  .cat (lit "market") (.cat ws0 (lit "cap")),
  .cat (lit "p") (.cat (reOpt (lit "/")) (.cat (lit "e") (.cat ws0 (lit "ratio")))),
  lit "earnings",
  lit "revenue",
  .cat (lit "dividend") (reOpt (lit "s")),
  lit "eps",
  .cat (lit "52") (.cat (reOpt anyc) (.cat (lit "w") (.cat (reOpt (lit "ee")) (lit "k")))),
  lit "nasdaq",
  .cat (lit "dow") (.cat ws0 (lit "jones")),
  .cat (lit "s&p") (.cat ws0 (lit "500")),
  .cat (lit "bull") (reOpt (lit "ish")),
  .cat (lit "bear") (reOpt (lit "ish")),
  lit "portfolio",
  lit "ipo",
  .cat (lit "etf") (reOpt (lit "s")),
  .cat (lit "mutual") (.cat ws0 (.cat (lit "fund") (reOpt (lit "s")))),
  .cat (lit "bond") (.cat ws0 (.cat (lit "yield") (reOpt (lit "s"))))
])

/-- Rule 2 — well-known tickers (case-sensitive; matched on the raw
message). -/
def reTickers : RE := wrapWb (anyOf [
  lit "NVDA", lit "AAPL", .cat (lit "GOOG") (reOpt (lit "L")), lit "MSFT",
  lit "AMZN", lit "TSLA", lit "META", lit "AMD", lit "INTC", lit "QCOM",
  lit "NFLX", lit "BA", lit "JPM", lit "WMT", lit "DIS", lit "V", lit "MA",
  lit "UNH", lit "JNJ", lit "PG", lit "HD", lit "COST", lit "CRM",
  lit "AVGO", lit "MU"
])

/-- Rule 3 — dollar amounts `\$[\d,.]+[BMTKbmtk]?` (no word
boundaries, case-sensitive). -/
def reDollar : RE :=
  .cat (.ch (fun c => c = '$'))
    (.cat (rePlus (.ch (fun c => isDig c || c = ',' || c = '.')))
      (reOpt (.ch (fun c =>
        c = 'B' || c = 'M' || c = 'T' || c = 'K' ||
        c = 'b' || c = 'm' || c = 't' || c = 'k'))))

/-- Rule 4 — economic / macro terms (`re.IGNORECASE`). -/
def reEcon : RE := wrapWb (anyOf [
  lit "forecast", lit "gdp", lit "inflation",
  .cat (lit "interest") (.cat ws0 (lit "rate")),
  lit "unemployment", lit "economic", lit "recession", lit "deficit",
  .cat (lit "trade") (.cat ws0 (lit "balance"))
])

/-- Rule 5 — KPI / dashboard terms (`re.IGNORECASE`). -/
def reKpi : RE := wrapWb (anyOf [
  lit "kpi", lit "dashboard", lit "metric", lit "analytics"
])

/-- Rule 6 — rankings with financial context (`re.IGNORECASE`): a
ranking phrase, any gap, then a financial noun (no closing `\b` after
the noun group, so prefixes like `compan` match). -/
def reRankFin : RE :=
  .cat .wb (.cat (anyOf [
      .cat (lit "top") (.cat ws1 dig1),
      .cat (lit "best") (.cat ws1 dig1),
      lit "largest", lit "biggest", lit "highest", lit "ranking"])
    (.cat .wb (.cat (.star anyc) (.cat .wb (anyOf [
      .cat (lit "stock") (reOpt (lit "s")),
      lit "compan",
      .cat (lit "fund") (reOpt (lit "s")),
      .cat (lit "etf") (reOpt (lit "s")),
      .cat (lit "bank") (reOpt (lit "s")),
      lit "tech",
      .cat (lit "startup") (reOpt (lit "s")),
      lit "crypt"])))))

/-- Rule 7 — `\b(?:vs\.?|versus)\b` (`re.IGNORECASE`). -/
def reVs : RE := wrapWb (anyOf [
  .cat (lit "vs") (reOpt (lit ".")),
  lit "versus"
])

/-- Rule 8 — comparison phrases (`re.IGNORECASE`). -/
def reCompare : RE := wrapWb (anyOf [
  lit "compare",
  lit "comparison",
  .cat (lit "which") (.cat ws1 (.cat (lit "is") (.cat ws1 (lit "better")))),
  .cat (lit "pro") (.cat (reOpt (lit "s")) (.cat ws1
    (.cat (anyOf [lit "and", lit "&"]) (.cat ws1 (.cat (lit "con") (reOpt (lit "s"))))))),
  .cat (lit "difference") (.cat (reOpt (lit "s")) (.cat ws1 (lit "between"))),
  .cat (lit "head") (.cat ws0 (.cat (lit "to") (.cat ws0 (lit "head"))))
])

/-- Rule 9 — how-to phrases (`re.IGNORECASE`). -/
def reHowto : RE := wrapWb (anyOf [
  .cat (lit "how") (.cat ws1 (anyOf [
    lit "to",
    .cat (lit "do") (.cat ws1 (lit "i")),
    .cat (lit "can") (.cat ws1 (lit "i"))])),
  .cat (lit "step") (.cat (reOpt anyc) (.cat (lit "by") (.cat (reOpt anyc) (lit "step")))),
  .cat (lit "guide") (.cat ws1 (lit "to")),
  lit "tutorial",
  lit "recipe",
  .cat (lit "instruction") (.cat (reOpt (lit "s"))
    (.cat ws1 (anyOf [lit "for", lit "to"]))),
  .cat (lit "set") (.cat ws0 (lit "up")),
  lit "install",
  lit "configure",
  lit "troubleshoot"
])

/-- Rule 10 — content / knowledge phrases (`re.IGNORECASE`). -/
def reContent : RE := wrapWb (anyOf [
  .cat (lit "what") (.cat ws1 (anyOf [
    lit "is", lit "are", lit "was", lit "were",
    .cat (lit "doe") (reOpt (lit "s")), lit "do"])),
  .cat (lit "who") (.cat ws1 (anyOf [lit "is", lit "are", lit "was", lit "were"])),
  lit "explain",
  .cat (lit "history") (.cat ws1 (lit "of")),
  lit "define",
  .cat (lit "meaning") (.cat ws1 (lit "of")),
  .cat (lit "overview") (.cat ws1 (lit "of")),
  .cat (lit "tell") (.cat ws1 (.cat (lit "me") (.cat ws1 (lit "about")))),
  lit "describe",
  .cat (lit "look") (.cat ws1 (lit "like")),
  .cat (lit "look") (.cat (reOpt (lit "s")) (.cat ws1 (lit "like"))),
  .cat (lit "why") (.cat ws1 (anyOf [
    lit "is", lit "are", lit "do", lit "does", lit "did"]))
])

/-- Rule 11 — generic rankings (`re.IGNORECASE`). -/
def reRankGen : RE := wrapWb (anyOf [
  .cat (lit "top") (.cat ws1 dig1),
  .cat (lit "best") (.cat ws1 dig1)
])

/-- The ordered rule table `_CLASSIFICATION_RULES`: matcher and target
style, evaluated top-to-bottom, first match wins.  Case-insensitive
patterns are searched on the lowered message. -/
def ruleMatchers : List ((List Char → Bool) × List Char) := [
  (fun m => reSearch reFinancial (toLowerList m), chars "analytical"),
  (fun m => reSearch reTickers m, chars "analytical"),
  (fun m => reSearch reDollar m, chars "analytical"),
  (fun m => reSearch reEcon (toLowerList m), chars "analytical"),
  (fun m => reSearch reKpi (toLowerList m), chars "analytical"),
  (fun m => reSearch reRankFin (toLowerList m), chars "analytical"),
  (fun m => reSearch reVs (toLowerList m), chars "comparison"),
  (fun m => reSearch reCompare (toLowerList m), chars "comparison"),
  (fun m => reSearch reHowto (toLowerList m), chars "howto"),
  (fun m => reSearch reContent (toLowerList m), chars "content"),
  (fun m => reSearch reRankGen (toLowerList m), chars "content")
]

/-- `DEFAULT_STYLE` of the style registry. -/
def DEFAULT_STYLE : List Char := chars "content"

/-- The registered style ids (`VALID_STYLE_IDS`). -/
def VALID_STYLE_IDS : List (List Char) :=
  [chars "analytical", chars "content", chars "comparison",
   chars "howto", chars "quick"]

/-- Count of `len(s.split())`: maximal whitespace-free runs. -/
def wordsFrom : List Char → Bool → Nat
  | [], _ => 0
  | c :: rest, prevSpace =>
    (if !pySpace c && prevSpace then 1 else 0) + wordsFrom rest (pySpace c)

/-- `len(msg.split())`. -/
def pyWordCount (s : List Char) : Nat := wordsFrom s true

/-- Model of `classify_style`: strip, first matching rule wins, else
short messages (at most 4 words) are `quick` and longer ones get the
default style. -/
def classify_style (message : List Char) : List Char :=
  let msg := pyStripList message
  match ruleMatchers.find? (fun rule => rule.1 msg) with
  | some rule => rule.2
  | none => if pyWordCount msg ≤ 4 then chars "quick" else DEFAULT_STYLE

/-- C10: the deterministic classifier always returns a registered style
id, and when no rule matches, messages of at most 4 whitespace-separated
words get `quick` while longer ones get the default style `content`. -/
theorem classify_style_spec (message : List Char) :
    classify_style message ∈ VALID_STYLE_IDS ∧
    ((∀ rule ∈ ruleMatchers, rule.1 (pyStripList message) = false) →
      classify_style message =
        if pyWordCount (pyStripList message) ≤ 4 then chars "quick"
        else chars "content") := by
  constructor
  · cases hf : ruleMatchers.find? (fun rule => rule.1 (pyStripList message)) with
    | none =>
      simp only [classify_style, hf]
      split
      · decide
      · decide
    | some rule =>
      have hm := List.mem_of_find?_eq_some hf
      simp only [classify_style, hf]
      simp only [ruleMatchers, List.mem_cons, List.not_mem_nil, or_false] at hm
      rcases hm with h|h|h|h|h|h|h|h|h|h|h <;> (rw [h]; decide)
  · intro hall
    have hf : ruleMatchers.find? (fun rule => rule.1 (pyStripList message)) = none := by
      apply List.find?_eq_none.mpr
      intro x hx
      simp [hall x hx]
    simp only [classify_style, hf, DEFAULT_STYLE]

set_option maxRecDepth 100000 in
/-- Witness for `classify_style_spec`: no classification rule matches
"hi", a 1-word message, so the result is `quick` (and registered). -/
theorem classify_style_spec_witness :
    classify_style (chars "hi") ∈ VALID_STYLE_IDS ∧
    classify_style (chars "hi") = chars "quick" := by
  obtain ⟨h1, h2⟩ := classify_style_spec (chars "hi")
  exact ⟨h1, (h2 (by decide)).trans (by decide)⟩

-- ── Deterministic tool heuristics (tools.py) ───────────────────

/-- The substring indicator list of `should_search`. -/
def SEARCH_INDICATORS : List (List Char) := [
  chars "current", chars "latest", chars "today", chars "now",
  chars "recent", chars "right now",
  chars "this week", chars "this month", chars "this year", chars "yesterday",
  chars "these days", chars "nowadays", chars "trending", chars "popular",
  chars "getting noticed", chars "going viral", chars "buzzing",
  chars "price", chars "stock", chars "market", chars "trading",
  chars "index", chars "fund",
  chars "dow", chars "djia", chars "nasdaq", chars "s&p", chars "sp500",
  chars "s&p500",
  chars "nyse", chars "russell", chars "ftse", chars "nikkei", chars "hang seng",
  chars "bitcoin", chars "btc", chars "eth", chars "ethereum", chars "crypto",
  chars "forex", chars "bond", chars "treasury", chars "yield", chars "earnings",
  chars "ipo", chars "dividend", chars "market cap",
  chars "ticker", chars "share", chars "shares",
  chars "weather", chars "forecast", chars "temperature",
  chars "news", chars "headlines", chars "breaking",
  chars "score", chars "game", chars "match", chars "standings",
  chars "what is the", chars "how much", chars "who won", chars "who is",
  chars "where is", chars "when is", chars "is it",
  chars "compare", chars "vs", chars "versus",
  chars "result", chars "update", chars "status",
  chars "show me", chars "pictures of", chars "photos of", chars "images of",
  chars "what does", chars "look like", chars "artwork", chars "art",
  chars "design", chars "architecture", chars "fashion",
  chars "2024", chars "2025", chars "2026"
]

/-- Model of `should_search(message)`: any indicator occurs as a
substring of the lowered message. -/
def should_search (message : List Char) : Bool :=
  SEARCH_INDICATORS.any (fun i => containsSub (toLowerList message) i)

/-- The indicator list of `LLMService._regex_needs_location`. -/
def LOCATION_INDICATORS : List (List Char) := [
  chars "weather", chars "forecast", chars "temperature",
  chars "near me", chars "nearby",
  chars "local", chars "restaurant", chars "food", chars "store",
  chars "shop", chars "event",
  chars "concert", chars "traffic", chars "commute", chars "directions",
  chars "open now",
  chars "closest"
]

/-- Model of `_regex_needs_location(message)`. -/
def regex_needs_location (message : List Char) : Bool :=
  LOCATION_INDICATORS.any (fun i => containsSub (toLowerList message) i)

-- ── The intent analyzer and its orchestrator fallback (C6) ─────

/-- Outcome of one candidate model in `_analyze_intent`: provider not
configured, call raised, or call returned this text. -/
inductive CandidateOutcome where
  | unavailable
  | failure
  | output (text : List Char)

/-- Python truthiness `bool(x)` of a JSON value. -/
def jsonTruthy : Json → Bool
  | .null => false
  | .bool b => b
  | .num n => n ≠ 0
  | .str s => s ≠ []
  | .arr [] => false
  | .arr (_ :: _) => true
  | .obj [] => false
  | .obj (_ :: _) => true

/-- The validated analyzer result. -/
structure Analysis where
  style : List Char
  search : Bool
  location : Bool
  search_query : Json
  data_sources : List Json

/-- The analyzer's fence stripping:
`re.sub(r"^```(?:json)?\s*", "", text)` then `re.sub(r"\s*```$", "", text)`,
applied only when the text starts with a fence. -/
def analyzerClean (text : List Char) : List Char :=
  if (chars "```").isPrefixOf text then
    let t1 := (if (chars "json").isPrefixOf (text.drop 3)
               then text.drop 7 else text.drop 3).dropWhile pySpace
    if (chars "```").isSuffixOf t1 then
      List.rdropWhile pySpace (t1.take (t1.length - 3))
    else t1
  else text

/-- One candidate's validation inside `_analyze_intent`: parse the
(fence-stripped) text as JSON, require a `style` field naming a
registered style, and build the analysis record.  The `search_query`
value is carried as raw JSON (its `str()` coercion plays no role in any
claim); any parse or validation failure makes the loop continue. -/
def analyzeCandidate (text : List Char) : Option Analysis :=
  match jsonLoads (analyzerClean text) with
  | some (.obj fields) =>
    match getField fields (chars "style") with
    | some (.str s) =>
      let st := pyStripList (toLowerList s)
      if st ∈ VALID_STYLE_IDS then
        some {
          style := st,
          search := jsonTruthy ((getField fields (chars "search")).getD (.bool false)),
          location := jsonTruthy ((getField fields (chars "location")).getD (.bool false)),
          search_query := (getField fields (chars "search_query")).getD (.str []),
          data_sources :=
            match getField fields (chars "data_sources") with
            | some (.arr l) => l
            | _ => []
        }
      else none
    | _ => none
  | _ => none

/-- Model of the `_analyze_intent` candidate loop: skip unavailable or
failing candidates, return the first valid analysis, `none` when all
are exhausted. -/
def analyze_intent : List CandidateOutcome → Option Analysis
  | [] => none
  | c :: rest =>
    match c with
    | .unavailable => analyze_intent rest
    | .failure => analyze_intent rest
    | .output t =>
      match analyzeCandidate t with
      | some a => some a
      | none => analyze_intent rest

/-- The three decisions of the analysis phase of `generate_stream`. -/
structure Decisions where
  style : List Char
  wantsSearch : Bool
  wantsLocation : Bool
deriving DecidableEq

/-- Model of the analysis phase of `generate_stream` (the style and
tool decisions before gates are applied): an explicit caller style is
kept; in auto mode the analyzer result is used when available; when the
analyzer failed the style falls back to the constant `DEFAULT_STYLE`
while search and location fall back to the regex heuristics; the
rule-based `classify_style` is used only when the classifier gate is
off.  `analysis` is the value `_analyze_intent` returned where the code
invokes it. -/
def orchestratorAnalysisPhase (classifierActive : Bool)
    (contentStyle : List Char) (analysis : Option Analysis)
    (message : List Char) : Decisions :=
  if contentStyle ≠ chars "auto" then
    { style := contentStyle,
      wantsSearch :=
        if classifierActive then
          match analysis with
          | some a => a.search
          | none => should_search message
        else should_search message,
      wantsLocation :=
        if classifierActive then
          match analysis with
          | some a => a.location
          | none => regex_needs_location message
        else regex_needs_location message }
  else if classifierActive then
    match analysis with
    | some a => { style := a.style, wantsSearch := a.search, wantsLocation := a.location }
    | none => { style := DEFAULT_STYLE, wantsSearch := should_search message,
                wantsLocation := regex_needs_location message }
  else
    { style := classify_style message, wantsSearch := should_search message,
      wantsLocation := regex_needs_location message }

set_option maxRecDepth 100000 in
/-- C6 counterexample: with all four candidate models exhausted the
analyzer returns `none` — but the orchestrator then uses the constant
default style `content`, not the deterministic rule-based classifier,
which on "iPhone vs Android" yields `comparison`. -/
theorem analyzer_fallback_counterexample :
    analyze_intent [.unavailable, .unavailable, .unavailable, .unavailable] = none ∧
    (orchestratorAnalysisPhase true (chars "auto") none
      (chars "iPhone vs Android")).style = chars "content" ∧
    classify_style (chars "iPhone vs Android") = chars "comparison" ∧
    (chars "content" : List Char) ≠ chars "comparison" := by
  exact ⟨rfl, rfl, by decide, by decide⟩

/-- A candidate that contributes no valid analysis. -/
def candidateFails : CandidateOutcome → Prop
  | .output t => analyzeCandidate t = none
  | _ => True

theorem analyze_intent_eq_none : ∀ (cands : List CandidateOutcome),
    (∀ c ∈ cands, candidateFails c) → analyze_intent cands = none
  | [], _ => rfl
  | c :: rest, hall => by
    have hrest := analyze_intent_eq_none rest
      (fun x hx => hall x (List.mem_cons_of_mem c hx))
    have hc := hall c (List.mem_cons_self c rest)
    cases c with
    | unavailable => simpa [analyze_intent] using hrest
    | failure => simpa [analyze_intent] using hrest
    | output t =>
      simp only [candidateFails] at hc
      simp [analyze_intent, hc, hrest]

/-- C6 amended: when every candidate model is exhausted without a valid
result, `_analyze_intent` returns `none`; the orchestrator then falls
back to the regex heuristics for the search-need and location-need
decisions, but the content style falls back to the constant default
style `content` — the rule-based style classifier runs only when the
AI classifier gate is off, not on analyzer failure. -/
theorem analyzer_exhaustion_fallback (cands : List CandidateOutcome)
    (message : List Char)
    (hall : ∀ c ∈ cands, candidateFails c) :
    analyze_intent cands = none ∧
    orchestratorAnalysisPhase true (chars "auto") (analyze_intent cands) message
      = { style := DEFAULT_STYLE,
          wantsSearch := should_search message,
          wantsLocation := regex_needs_location message } := by
  have hnone := analyze_intent_eq_none cands hall
  refine ⟨hnone, ?_⟩
  rw [hnone]
  rfl

/-- Witness for `analyzer_exhaustion_fallback`: an unparsable candidate
output plus an unavailable provider exhaust the loop; on "hello" the
regex fallbacks decide no search and no location, and the style is the
default `content`. -/
theorem analyzer_exhaustion_fallback_witness :
    analyze_intent [CandidateOutcome.output (chars "oops"),
      CandidateOutcome.unavailable] = none ∧
    orchestratorAnalysisPhase true (chars "auto")
      (analyze_intent [CandidateOutcome.output (chars "oops"),
        CandidateOutcome.unavailable]) (chars "hello")
      = { style := chars "content", wantsSearch := false, wantsLocation := false } := by
  have h := analyzer_exhaustion_fallback
    [CandidateOutcome.output (chars "oops"), CandidateOutcome.unavailable]
    (chars "hello")
    (by
      intro c hc
      fin_cases hc
      · exact rfl
      · trivial)
  exact ⟨h.1, h.2.trans (by decide)⟩

-- ── C1: round-trip lemmas, numbers ─────────────────────────────

theorem natChars_lt_10 (n : Nat) (h : n < 10) :
    natChars n = [Char.ofNat (48 + n)] := by
  rw [natChars]
  simp [h]

theorem natChars_ge_10 (n : Nat) (h : ¬ n < 10) :
    natChars n = natChars (n / 10) ++ [Char.ofNat (48 + n % 10)] := by
  rw [natChars]
  simp [h]

theorem digitChar_isDig (n : Nat) (h : n < 10) :
    isDig (Char.ofNat (48 + n)) = true := by
  interval_cases n <;> decide

theorem digitChar_toNat (n : Nat) (h : n < 10) :
    (Char.ofNat (48 + n)).toNat - 48 = n := by
  interval_cases n <;> decide

theorem digitChar_ne_zero (n : Nat) (h1 : 1 ≤ n) (h2 : n < 10) :
    Char.ofNat (48 + n) ≠ '0' := by
  interval_cases n <;> decide

theorem natChars_all_digits (n : Nat) : ∀ c ∈ natChars n, isDig c = true := by
  induction n using Nat.strong_induction_on with
  | _ n ih =>
    by_cases h : n < 10
    · rw [natChars_lt_10 n h]
      intro c hc
      simp only [List.mem_singleton] at hc
      subst hc
      exact digitChar_isDig n h
    · rw [natChars_ge_10 n h]
      intro c hc
      rcases List.mem_append.mp hc with hc | hc
      · exact ih (n / 10) (Nat.div_lt_self (by omega) (by omega)) c hc
      · simp only [List.mem_singleton] at hc
        subst hc
        exact digitChar_isDig _ (Nat.mod_lt _ (by omega))

theorem natChars_head (n : Nat) :
    ∃ c t, natChars n = c :: t ∧ isDig c = true ∧
      (1 ≤ n → c ≠ '0') ∧ (n = 0 → c = '0' ∧ t = []) := by
  induction n using Nat.strong_induction_on with
  | _ n ih =>
    by_cases h : n < 10
    · rw [natChars_lt_10 n h]
      refine ⟨Char.ofNat (48 + n), [], rfl, digitChar_isDig n h, ?_, ?_⟩
      · intro h1
        exact digitChar_ne_zero n h1 h
      · intro h0
        subst h0
        exact ⟨rfl, rfl⟩
    · obtain ⟨c, t, heq, hdig, hne, _⟩ :=
        ih (n / 10) (Nat.div_lt_self (by omega) (by omega))
      rw [natChars_ge_10 n h, heq]
      refine ⟨c, t ++ [Char.ofNat (48 + n % 10)], rfl, hdig, ?_, ?_⟩
      · intro _
        exact hne (by omega)
      · intro h0
        omega

theorem parseDigits_stop (rest : List Char) (acc : Nat)
    (h : headIsDig rest = false) : parseDigits rest acc = (acc, rest) := by
  cases rest with
  | nil => rfl
  | cons c t =>
    simp only [headIsDig] at h
    simp [parseDigits, h]

theorem parseDigits_natChars (n : Nat) : ∀ (acc : Nat) (rest : List Char),
    parseDigits (natChars n ++ rest) acc
      = parseDigits rest (acc * 10 ^ (natChars n).length + n) := by
  induction n using Nat.strong_induction_on with
  | _ n ih =>
    intro acc rest
    by_cases h : n < 10
    · rw [natChars_lt_10 n h]
      simp only [List.singleton_append, parseDigits, digitChar_isDig n h,
        if_pos, List.length_singleton, pow_one, digitChar_toNat n h,
        List.nil_append]
      rfl
    · rw [natChars_ge_10 n h, List.append_assoc]
      rw [ih (n / 10) (Nat.div_lt_self (by omega) (by omega))]
      have hm : n % 10 < 10 := Nat.mod_lt _ (by omega)
      simp only [List.singleton_append, parseDigits, digitChar_isDig _ hm,
        if_pos, digitChar_toNat _ hm, List.length_append,
        List.length_singleton]
      congr 1
      have hd := Nat.div_add_mod n 10
      have : 10 ^ ((natChars (n / 10)).length + 1)
          = 10 ^ (natChars (n / 10)).length * 10 := by ring
      rw [this]
      ring_nf
      omega

/-- The character after a serialised number must not extend it. -/
def numHeadOk (rest : List Char) : Prop :=
  headIsDig rest = false ∧ headIsNumCont rest = false

theorem parseNumBody_natChars (n : Nat) (rest : List Char) (neg : Bool)
    (hrest : numHeadOk rest) :
    parseNumBody neg (natChars n ++ rest)
      = some (.num (if neg then -(n : Int) else (n : Int)), rest) := by
  obtain ⟨c, t, heq, hdig, hne, hzero⟩ := natChars_head n
  rw [heq]
  simp only [List.cons_append, parseNumBody, hdig, if_pos]
  have hlead : ¬ (c = '0' ∧ headIsDig (t ++ rest) = true) := by
    rintro ⟨hc0, hhd⟩
    by_cases hn0 : n = 0
    · obtain ⟨-, ht⟩ := hzero hn0
      subst ht
      simp only [List.nil_append] at hhd
      rw [hrest.1] at hhd
      exact Bool.false_ne_true hhd
    · exact hne (by omega) hc0
  rw [if_neg hlead]
  have := parseDigits_natChars n 0 rest
  rw [heq] at this
  simp only [List.cons_append] at this
  rw [this, Nat.zero_mul, Nat.zero_add, parseDigits_stop rest n hrest.1]
  simp [hrest.2]

theorem parseNum_intChars (i : Int) (rest : List Char)
    (hrest : numHeadOk rest) :
    parseNum (intChars i ++ rest) = some (.num i, rest) := by
  by_cases hneg : i < 0
  · simp only [intChars, if_pos hneg, List.cons_append, parseNum]
    rw [parseNumBody_natChars i.natAbs rest true hrest]
    have habs : -((i.natAbs : Nat) : Int) = i := by omega
    rw [if_pos rfl, habs]
  · simp only [intChars, if_neg hneg]
    obtain ⟨c, t, heq, hdig, -, -⟩ := natChars_head i.toNat
    have hcne : c ≠ '-' := by
      intro hc
      rw [hc] at hdig
      exact absurd hdig (by decide)
    rw [parseNum.eq_def]
    rw [heq]
    simp only [List.cons_append]
    split
    · rename_i heq2
      exact absurd (List.cons.inj heq2).1 hcne
    · rw [← List.cons_append, ← heq, parseNumBody_natChars i.toNat rest false hrest]
      have htn : ((i.toNat : Nat) : Int) = i := Int.toNat_of_nonneg (by omega)
      simp [htn]

-- ── C1: round-trip lemmas, strings ─────────────────────────────

theorem hexVal_hexDigitChar (n : Nat) (h : n < 16) :
    hexVal (hexDigitChar n) = some n := by
  interval_cases n <;> decide

theorem parseStr_quote (rest : List Char) : parseStr ('"' :: rest) = some ([], rest) := by
  unfold parseStr
  simp

theorem parseStr_backslash (rest : List Char) (d : Char) (rest2 : List Char)
    (hd : decodeEscape rest = some (d, rest2)) :
    parseStr ('\\' :: rest) = (fun p => (d :: p.1, p.2)) <$> parseStr rest2 := by
  rw [parseStr.eq_def]
  dsimp only
  rw [if_neg (by decide : ¬ ('\\' : Char) = '"'), if_pos rfl]
  split
  · rename_i d2 rest3 heq
    rw [hd] at heq
    simp only [Option.some.injEq, Prod.mk.injEq] at heq
    rw [← heq.1, ← heq.2]
  · rename_i heq
    rw [hd] at heq
    simp at heq

theorem parseStr_plain (c : Char) (rest : List Char) (h1 : c ≠ '"') (h2 : c ≠ '\\')
    (h3 : ¬ c.toNat < 32) :
    parseStr (c :: rest) = (fun p => (c :: p.1, p.2)) <$> parseStr rest := by
  rw [parseStr.eq_def]
  dsimp only
  simp [h1, h2, h3]

theorem decodeEscape_short (e d : Char) (hde : escDecode e = some d) (he : e ≠ 'u')
    (s : List Char) : decodeEscape (e :: s) = some (d, s) := by
  simp [decodeEscape, he, hde]

theorem parseStr_escape2 (e d : Char) (hde : escDecode e = some d)
    (he : e ≠ 'u') (s : List Char) :
    parseStr ('\\' :: e :: s) = (fun p => (d :: p.1, p.2)) <$> parseStr s :=
  parseStr_backslash (e :: s) d s (decodeEscape_short e d hde he s)

theorem decodeEscape_ctrl (c : Char) (h8 : c.toNat < 32) (s : List Char) :
    decodeEscape ('u' :: '0' :: '0' :: hexDigitChar (c.toNat / 16) ::
      hexDigitChar (c.toNat % 16) :: s) = some (c, s) := by
  have hdiv : c.toNat / 16 < 16 := by omega
  have hmod : c.toNat % 16 < 16 := by omega
  have h0 : hexVal '0' = some 0 := by decide
  simp only [decodeEscape, if_pos rfl, if_true, hexQuad, h0,
    hexVal_hexDigitChar _ hdiv, hexVal_hexDigitChar _ hmod]
  have hv : ((0 * 16 + 0) * 16 + c.toNat / 16) * 16 + c.toNat % 16 = c.toNat := by
    omega
  rw [hv]
  have hs1 : ¬ (0xD800 ≤ c.toNat ∧ c.toNat ≤ 0xDBFF) := by omega
  have hs2 : ¬ (0xDC00 ≤ c.toNat ∧ c.toNat ≤ 0xDFFF) := by omega
  rw [if_neg hs1, if_neg hs2, Char.ofNat_toNat]

theorem parseStr_escStr (k : List Char) : ∀ rest : List Char,
    parseStr (escStr k ++ '"' :: rest) = some (k, rest) := by
  induction k with
  | nil =>
    intro rest
    have h : escStr [] = [] := rfl
    rw [h, List.nil_append, parseStr_quote]
  | cons c k ih =>
    intro rest
    have hesc : escStr (c :: k) = escChar c ++ escStr k := by
      simp [escStr]
    rw [hesc, List.append_assoc]
    by_cases h1 : c = '"'
    · subst h1
      have h : escChar '"' = ['\\', '"'] := by decide
      rw [h, List.cons_append, List.cons_append, List.nil_append,
        parseStr_escape2 '"' '"' (by decide) (by decide), ih rest]
      rfl
    by_cases h2 : c = '\\'
    · subst h2
      have h : escChar '\\' = ['\\', '\\'] := by decide
      rw [h, List.cons_append, List.cons_append, List.nil_append,
        parseStr_escape2 '\\' '\\' (by decide) (by decide), ih rest]
      rfl
    by_cases h3 : c = '\n'
    · subst h3
      have h : escChar '\n' = ['\\', 'n'] := by decide
      rw [h, List.cons_append, List.cons_append, List.nil_append,
        parseStr_escape2 'n' '\n' (by decide) (by decide), ih rest]
      rfl
    by_cases h4 : c = '\t'
    · subst h4
      have h : escChar '\t' = ['\\', 't'] := by decide
      rw [h, List.cons_append, List.cons_append, List.nil_append,
        parseStr_escape2 't' '\t' (by decide) (by decide), ih rest]
      rfl
    by_cases h5 : c = '\r'
    · subst h5
      have h : escChar '\r' = ['\\', 'r'] := by decide
      rw [h, List.cons_append, List.cons_append, List.nil_append,
        parseStr_escape2 'r' '\r' (by decide) (by decide), ih rest]
      rfl
    by_cases h6 : c = '\x08'
    · subst h6
      have h : escChar '\x08' = ['\\', 'b'] := by decide
      rw [h, List.cons_append, List.cons_append, List.nil_append,
        parseStr_escape2 'b' '\x08' (by decide) (by decide), ih rest]
      rfl
    by_cases h7 : c = '\x0c'
    · subst h7
      have h : escChar '\x0c' = ['\\', 'f'] := by decide
      rw [h, List.cons_append, List.cons_append, List.nil_append,
        parseStr_escape2 'f' '\x0c' (by decide) (by decide), ih rest]
      rfl
    by_cases h8 : c.toNat < 32
    · have h : escChar c = ['\\', 'u', '0', '0',
          hexDigitChar (c.toNat / 16), hexDigitChar (c.toNat % 16)] := by
        simp only [escChar, if_neg h1, if_neg h2, if_neg h3, if_neg h4,
          if_neg h5, if_neg h6, if_neg h7, if_pos h8]
      rw [h]
      simp only [List.cons_append, List.nil_append]
      rw [parseStr_backslash _ c _ (decodeEscape_ctrl c h8 _), ih rest]
      rfl
    · have h : escChar c = [c] := by
        simp only [escChar, if_neg h1, if_neg h2, if_neg h3, if_neg h4,
          if_neg h5, if_neg h6, if_neg h7, if_neg h8]
      rw [h]
      simp only [List.cons_append, List.nil_append]
      rw [parseStr_plain c _ h1 h2 h8, ih rest]
      rfl

-- ── C1: round-trip, values ─────────────────────────────────────

/-- Side condition threaded through the round-trip: after a serialised
number the remainder must not extend the numeral. -/
def numOk : Json → List Char → Prop
  | .num _, rest => numHeadOk rest
  | _, _ => True

theorem numOk_cons (v : Json) (c : Char) (t : List Char) (h1 : isDig c = false)
    (h2 : c ≠ '.') (h3 : c ≠ 'e') (h4 : c ≠ 'E') : numOk v (c :: t) := by
  cases v <;> simp [numOk, numHeadOk, headIsDig, headIsNumCont, h1, h2, h3, h4]

theorem isDig_ne (c x : Char) (h : isDig c = true) (hx : isDig x = false) : c ≠ x := by
  intro he
  subst he
  rw [h] at hx
  exact absurd hx (by decide)

theorem isDig_not_space (c : Char) (h : isDig c = true) : jsonSpace c = false := by
  cases hsp : jsonSpace c with
  | false => rfl
  | true =>
    simp only [jsonSpace, Bool.or_eq_true, decide_eq_true_eq] at hsp
    rcases hsp with ((h1 | h1) | h1) | h1 <;> (subst h1; exact absurd h (by decide))

theorem skipWs_cons (c : Char) (t : List Char) (h : jsonSpace c = false) :
    skipWs (c :: t) = c :: t := by
  simp [skipWs, List.dropWhile_cons, h]

theorem skipWs_space (t : List Char) : skipWs (' ' :: t) = skipWs t := by
  have h : jsonSpace ' ' = true := by decide
  simp [skipWs, List.dropWhile_cons, h]

theorem serHead (v : Json) : ∃ c t, ser v = c :: t ∧ jsonSpace c = false ∧
    c ≠ ']' ∧ c ≠ ',' ∧ c ≠ '\x7d' ∧ c ≠ ':' := by
  match v with
  | .null => exact ⟨'n', chars "ull", rfl, by decide, by decide, by decide, by decide, by decide⟩
  | .bool true => exact ⟨'t', chars "rue", rfl, by decide, by decide, by decide, by decide, by decide⟩
  | .bool false => exact ⟨'f', chars "alse", rfl, by decide, by decide, by decide, by decide, by decide⟩
  | .str s1 => exact ⟨'"', escStr s1 ++ ['"'], rfl, by decide, by decide, by decide, by decide, by decide⟩
  | .arr items => exact ⟨'[', serItems items ++ [']'], rfl, by decide, by decide, by decide, by decide, by decide⟩
  | .obj fields => exact ⟨'\x7b', serFields fields ++ ['\x7d'], rfl, by decide, by decide, by decide, by decide, by decide⟩
  | .num i =>
    by_cases hneg : i < 0
    · refine ⟨'-', natChars i.natAbs, ?_, by decide, by decide, by decide, by decide, by decide⟩
      show intChars i = _
      simp [intChars, hneg]
    · obtain ⟨c, t, heq, hdig, -, -⟩ := natChars_head i.toNat
      refine ⟨c, t, ?_, isDig_not_space c hdig, isDig_ne c ']' hdig (by decide),
        isDig_ne c ',' hdig (by decide), isDig_ne c '\x7d' hdig (by decide),
        isDig_ne c ':' hdig (by decide)⟩
      show intChars i = _
      simp [intChars, hneg, heq]

theorem ser_length_pos (v : Json) : 1 ≤ (ser v).length := by
  obtain ⟨c, t, heq, -⟩ := serHead v
  rw [heq]
  simp

theorem skipWs_ser (v : Json) (tail : List Char) :
    skipWs (ser v ++ tail) = ser v ++ tail := by
  obtain ⟨c, t, heq, hsp, -⟩ := serHead v
  rw [heq, List.cons_append, skipWs_cons _ _ hsp]

theorem serItems_cons_head (x : Json) (xs : List Json) :
    ∃ c t, serItems (x :: xs) = c :: t ∧ jsonSpace c = false ∧ c ≠ ']' := by
  obtain ⟨c, t, heq, hsp, h1, -⟩ := serHead x
  match xs with
  | [] => exact ⟨c, t, by rw [show serItems [x] = ser x from rfl, heq], hsp, h1⟩
  | y :: ys =>
    refine ⟨c, t ++ ',' :: ' ' :: serItems (y :: ys), ?_, hsp, h1⟩
    rw [show serItems (x :: y :: ys) = ser x ++ ',' :: ' ' :: serItems (y :: ys) from rfl,
      heq, List.cons_append]

theorem serItems_length_pos (x : Json) (xs : List Json) :
    1 ≤ (serItems (x :: xs)).length := by
  obtain ⟨c, t, heq, -⟩ := serItems_cons_head x xs
  rw [heq]
  simp

theorem skipWs_serItems (x : Json) (xs : List Json) (tail : List Char) :
    skipWs (serItems (x :: xs) ++ tail) = serItems (x :: xs) ++ tail := by
  obtain ⟨c, t, heq, hsp, -⟩ := serItems_cons_head x xs
  rw [heq, List.cons_append, skipWs_cons _ _ hsp]

theorem serFields_cons_head (k : List Char) (v : Json) (fs : List (List Char × Json)) :
    ∃ t, serFields ((k, v) :: fs) = '"' :: t := by
  match fs with
  | [] =>
    exact ⟨escStr k ++ '"' :: ':' :: ' ' :: ser v,
      by rw [show serFields [(k, v)] = serStr k ++ ':' :: ' ' :: ser v from rfl]; simp [serStr]⟩
  | f2 :: fs2 =>
    exact ⟨escStr k ++ '"' :: ':' :: ' ' :: (ser v ++ ',' :: ' ' :: serFields (f2 :: fs2)),
      by rw [show serFields ((k, v) :: f2 :: fs2)
          = serStr k ++ ':' :: ' ' :: ser v ++ ',' :: ' ' :: serFields (f2 :: fs2) from rfl]
         simp [serStr]⟩

theorem serFields_length_pos (k : List Char) (v : Json) (fs : List (List Char × Json)) :
    1 ≤ (serFields ((k, v) :: fs)).length := by
  obtain ⟨t, heq⟩ := serFields_cons_head k v fs
  rw [heq]
  simp

theorem serStr_length (k : List Char) : (serStr k).length = (escStr k).length + 2 := by
  simp [serStr]

theorem skipWs_serFields (k : List Char) (v : Json) (fs : List (List Char × Json))
    (tail : List Char) :
    skipWs (serFields ((k, v) :: fs) ++ tail) = serFields ((k, v) :: fs) ++ tail := by
  obtain ⟨t, heq⟩ := serFields_cons_head k v fs
  rw [heq, List.cons_append, skipWs_cons _ _ (by decide)]

theorem skipWs_colon (t : List Char) : skipWs (':' :: t) = ':' :: t :=
  skipWs_cons _ _ (by decide)

theorem skipWs_comma (t : List Char) : skipWs (',' :: t) = ',' :: t :=
  skipWs_cons _ _ (by decide)

theorem skipWs_rbracket (t : List Char) : skipWs (']' :: t) = ']' :: t :=
  skipWs_cons _ _ (by decide)

theorem skipWs_rbrace (t : List Char) : skipWs ('\x7d' :: t) = '\x7d' :: t :=
  skipWs_cons _ _ (by decide)

set_option maxHeartbeats 1000000 in
theorem parse_ser (fuel : Nat) :
    (∀ v s rest, skipWs s = ser v ++ rest → (ser v).length ≤ fuel →
      numOk v rest → parseVal fuel s = some (v, rest)) ∧
    (∀ x xs s rest, skipWs s = serItems (x :: xs) ++ ']' :: rest →
      (serItems (x :: xs)).length < fuel →
      parseArrItems fuel s = some (x :: xs, rest)) ∧
    (∀ k v fs s rest, skipWs s = serFields ((k, v) :: fs) ++ '\x7d' :: rest →
      (serFields ((k, v) :: fs)).length < fuel →
      parseObjItems fuel s = some ((k, v) :: fs, rest)) := by
  induction fuel with
  | zero =>
    refine ⟨?_, ?_, ?_⟩
    · intro v s rest _ hlen _
      have := ser_length_pos v
      omega
    · intro x xs s rest _ hlen
      omega
    · intro k v fs s rest _ hlen
      omega
  | succ f ih =>
    obtain ⟨ihP, ihQ, ihR⟩ := ih
    refine ⟨?_, ?_, ?_⟩
    · intro v s rest hs hlen hnum
      match v with
      | .null =>
        have hs2 : skipWs s = 'n' :: 'u' :: 'l' :: 'l' :: rest := hs
        have hd : dropLit (chars "ull") ('u' :: 'l' :: 'l' :: rest) = some rest := rfl
        simp only [parseVal, hs2]
        simp [hd]
      | .bool true =>
        have hs2 : skipWs s = 't' :: 'r' :: 'u' :: 'e' :: rest := hs
        have hd : dropLit (chars "rue") ('r' :: 'u' :: 'e' :: rest) = some rest := rfl
        simp only [parseVal, hs2]
        simp [hd]
      | .bool false =>
        have hs2 : skipWs s = 'f' :: 'a' :: 'l' :: 's' :: 'e' :: rest := hs
        have hd : dropLit (chars "alse") ('a' :: 'l' :: 's' :: 'e' :: rest) = some rest := rfl
        simp only [parseVal, hs2]
        simp [hd]
      | .str s1 =>
        have hs2 : skipWs s = '"' :: (escStr s1 ++ '"' :: rest) := by
          rw [hs]
          show ('"' :: (escStr s1 ++ ['"'])) ++ rest = _
          simp
        simp only [parseVal, hs2]
        simp [parseStr_escStr s1 rest]
      | .num i =>
        by_cases hneg : i < 0
        · have hs2 : skipWs s = '-' :: (natChars i.natAbs ++ rest) := by
            rw [hs]
            show intChars i ++ rest = _
            simp [intChars, hneg]
          simp only [parseVal, hs2]
          rw [if_neg (by decide), if_neg (by decide), if_neg (by decide),
            if_neg (by decide), if_neg (by decide), if_neg (by decide),
            if_pos (by decide : (decide True || isDig '-') = true)]
          have he : '-' :: (natChars i.natAbs ++ rest) = intChars i ++ rest := by
            simp [intChars, hneg]
          rw [he]
          exact parseNum_intChars i rest hnum
        · obtain ⟨c, t, heq, hdig, -, -⟩ := natChars_head i.toNat
          have hs2 : skipWs s = c :: (t ++ rest) := by
            rw [hs]
            show intChars i ++ rest = _
            simp [intChars, hneg, heq]
          simp only [parseVal, hs2]
          rw [if_neg (isDig_ne c '\x7b' hdig (by decide)),
            if_neg (isDig_ne c '[' hdig (by decide)),
            if_neg (isDig_ne c '"' hdig (by decide)),
            if_neg (isDig_ne c 'n' hdig (by decide)),
            if_neg (isDig_ne c 't' hdig (by decide)),
            if_neg (isDig_ne c 'f' hdig (by decide)),
            if_pos (by simp [hdig] : (c = '-' || isDig c) = true)]
          have he : c :: (t ++ rest) = intChars i ++ rest := by
            simp [intChars, hneg, heq]
          rw [he]
          exact parseNum_intChars i rest hnum
      | .arr items =>
        match items with
        | [] =>
          have hs2 : skipWs s = '[' :: ']' :: rest := hs
          simp only [parseVal, hs2]
          rw [if_neg (by decide : ¬ ('[' : Char) = '\x7b'), if_pos trivial,
            skipWs_cons _ _ (by decide)]
          rfl
        | x :: xs =>
          have hs2 : skipWs s = '[' :: (serItems (x :: xs) ++ ']' :: rest) := by
            rw [hs]
            show ('[' :: (serItems (x :: xs) ++ [']'])) ++ rest = _
            simp
          simp only [parseVal, hs2]
          rw [if_neg (by decide : ¬ ('[' : Char) = '\x7b'), if_pos trivial]
          obtain ⟨c, t, hseq, hcsp, hc1⟩ := serItems_cons_head x xs
          rw [hseq, List.cons_append, skipWs_cons _ _ hcsp]
          have hfuel : (serItems (x :: xs)).length < f := by
            have h1 : (ser (.arr (x :: xs))).length = (serItems (x :: xs)).length + 2 := by
              show (('[' :: (serItems (x :: xs) ++ [']'])) : List Char).length = _
              simp
            omega
          have hskip : skipWs (c :: (t ++ ']' :: rest)) = serItems (x :: xs) ++ ']' :: rest := by
            rw [skipWs_cons _ _ hcsp, ← List.cons_append, ← hseq]
          have harr := ihQ x xs (c :: (t ++ ']' :: rest)) rest hskip hfuel
          split
          · rename_i r heq2
            exact absurd (List.cons.inj heq2).1 hc1
          · simp only [harr]
      | .obj fields =>
        match fields with
        | [] =>
          have hs2 : skipWs s = '\x7b' :: '\x7d' :: rest := hs
          simp only [parseVal, hs2]
          rw [if_pos trivial, skipWs_cons _ _ (by decide)]
          rfl
        | (k, v1) :: fs =>
          have hs2 : skipWs s = '\x7b' :: (serFields ((k, v1) :: fs) ++ '\x7d' :: rest) := by
            rw [hs]
            show ('\x7b' :: (serFields ((k, v1) :: fs) ++ ['\x7d'])) ++ rest = _
            simp
          simp only [parseVal, hs2]
          rw [if_pos trivial]
          obtain ⟨t, hfeq⟩ := serFields_cons_head k v1 fs
          rw [hfeq, List.cons_append, skipWs_cons _ _ (by decide)]
          have hfuel : (serFields ((k, v1) :: fs)).length < f := by
            have h1 : (ser (.obj ((k, v1) :: fs))).length
                = (serFields ((k, v1) :: fs)).length + 2 := by
              show (('\x7b' :: (serFields ((k, v1) :: fs) ++ ['\x7d'])) : List Char).length = _
              simp
            omega
          have hskip : skipWs ('"' :: (t ++ '\x7d' :: rest))
              = serFields ((k, v1) :: fs) ++ '\x7d' :: rest := by
            rw [skipWs_cons _ _ (by decide), ← List.cons_append, ← hfeq]
          have hobj := ihR k v1 fs ('"' :: (t ++ '\x7d' :: rest)) rest hskip hfuel
          simp only [hobj]
          rfl
    · intro x xs s rest hs hlen
      match xs with
      | [] =>
        have hs2 : skipWs s = ser x ++ ']' :: rest := hs
        have hlen2 : (ser x).length ≤ f := by
          have : serItems [x] = ser x := rfl
          rw [this] at hlen
          omega
        have hv := ihP x s (']' :: rest) hs2 hlen2
          (numOk_cons x ']' rest (by decide) (by decide) (by decide) (by decide))
        simp only [parseArrItems, hv, skipWs_rbracket]
      | y :: ys =>
        have hse : serItems (x :: y :: ys) = ser x ++ ',' :: ' ' :: serItems (y :: ys) := rfl
        have hs2 : skipWs s = ser x ++ ',' :: ' ' :: (serItems (y :: ys) ++ ']' :: rest) := by
          rw [hs, hse]
          simp
        have hlx : 1 ≤ (ser x).length := ser_length_pos x
        have hly : 1 ≤ (serItems (y :: ys)).length := serItems_length_pos y ys
        have hlen2 : (ser x).length ≤ f := by
          rw [hse] at hlen
          simp at hlen
          omega
        have hfuel : (serItems (y :: ys)).length < f := by
          rw [hse] at hlen
          simp at hlen
          omega
        have hv := ihP x s (',' :: ' ' :: (serItems (y :: ys) ++ ']' :: rest)) hs2 hlen2
          (numOk_cons x ',' _ (by decide) (by decide) (by decide) (by decide))
        simp only [parseArrItems, hv, skipWs_comma]
        have hskip : skipWs (' ' :: (serItems (y :: ys) ++ ']' :: rest))
            = serItems (y :: ys) ++ ']' :: rest := by
          rw [skipWs_space, skipWs_serItems]
        have harr := ihQ y ys (' ' :: (serItems (y :: ys) ++ ']' :: rest)) rest hskip hfuel
        simp only [harr]
    · intro k v fs s rest hs hlen
      match fs with
      | [] =>
        have hsf : serFields [(k, v)] = serStr k ++ ':' :: ' ' :: ser v := rfl
        have hs2 : skipWs s = '"' :: (escStr k ++ '"' :: ':' :: ' ' :: (ser v ++ '\x7d' :: rest)) := by
          rw [hs, hsf]
          show (('"' :: (escStr k ++ ['"'])) ++ ':' :: ' ' :: ser v) ++ '\x7d' :: rest = _
          simp
        have hlenv : (ser v).length ≤ f := by
          rw [hsf] at hlen
          have := serStr_length k
          simp [this] at hlen
          omega
        simp only [parseObjItems, hs2, parseStr_escStr, skipWs_colon]
        have hskip : skipWs (' ' :: (ser v ++ '\x7d' :: rest)) = ser v ++ '\x7d' :: rest := by
          rw [skipWs_space, skipWs_ser]
        have hv := ihP v (' ' :: (ser v ++ '\x7d' :: rest)) ('\x7d' :: rest) hskip hlenv
          (numOk_cons v '\x7d' rest (by decide) (by decide) (by decide) (by decide))
        simp only [hv, skipWs_rbrace]
      | (k2, v2) :: fs2 =>
        have hsf : serFields ((k, v) :: (k2, v2) :: fs2)
            = serStr k ++ ':' :: ' ' :: ser v ++ ',' :: ' ' :: serFields ((k2, v2) :: fs2) := rfl
        have hs2 : skipWs s = '"' :: (escStr k ++ '"' :: ':' :: ' ' ::
            (ser v ++ ',' :: ' ' :: (serFields ((k2, v2) :: fs2) ++ '\x7d' :: rest))) := by
          rw [hs, hsf]
          show (('"' :: (escStr k ++ ['"'])) ++ ':' :: ' ' :: ser v
            ++ ',' :: ' ' :: serFields ((k2, v2) :: fs2)) ++ '\x7d' :: rest = _
          simp
        have hlf : 1 ≤ (serFields ((k2, v2) :: fs2)).length := serFields_length_pos k2 v2 fs2
        have hlv : 1 ≤ (ser v).length := ser_length_pos v
        have hlenv : (ser v).length ≤ f := by
          rw [hsf] at hlen
          have := serStr_length k
          simp [this] at hlen
          omega
        have hfuel : (serFields ((k2, v2) :: fs2)).length < f := by
          rw [hsf] at hlen
          have := serStr_length k
          simp [this] at hlen
          omega
        simp only [parseObjItems, hs2, parseStr_escStr, skipWs_colon]
        have hskip : skipWs (' ' :: (ser v ++ ',' :: ' ' :: (serFields ((k2, v2) :: fs2) ++ '\x7d' :: rest)))
            = ser v ++ ',' :: ' ' :: (serFields ((k2, v2) :: fs2) ++ '\x7d' :: rest) := by
          rw [skipWs_space, skipWs_ser]
        have hv := ihP v (' ' :: (ser v ++ ',' :: ' ' :: (serFields ((k2, v2) :: fs2) ++ '\x7d' :: rest)))
          (',' :: ' ' :: (serFields ((k2, v2) :: fs2) ++ '\x7d' :: rest)) hskip hlenv
          (numOk_cons v ',' _ (by decide) (by decide) (by decide) (by decide))
        simp only [hv, skipWs_comma]
        have hskip2 : skipWs (' ' :: (serFields ((k2, v2) :: fs2) ++ '\x7d' :: rest))
            = serFields ((k2, v2) :: fs2) ++ '\x7d' :: rest := by
          rw [skipWs_space, skipWs_serFields]
        have hobj := ihR k2 v2 fs2 (' ' :: (serFields ((k2, v2) :: fs2) ++ '\x7d' :: rest)) rest hskip2 hfuel
        simp only [hobj]

-- ── C1: brace-counting extraction over serialised objects ──────

theorem hexDigitChar_plain (n : Nat) (h : n < 16) :
    hexDigitChar n ≠ '\\' ∧ hexDigitChar n ≠ '"' := by
  interval_cases n <;> exact ⟨by decide, by decide⟩

theorem braceScan_escStr (k : List Char) : ∀ (rest : List Char) (d : Nat) (acc : List Char),
    braceScan (escStr k ++ rest) d true false acc
      = braceScan rest d true false ((escStr k).reverse ++ acc) := by
  induction k with
  | nil => intro rest d acc; rfl
  | cons c k ih =>
    intro rest d acc
    have hesc : escStr (c :: k) = escChar c ++ escStr k := by simp [escStr]
    rw [hesc, List.append_assoc, List.reverse_append]
    by_cases h1 : c = '"'
    · subst h1
      rw [show escChar '"' = ['\\', '"'] from by decide]
      simp [braceScan, ih]
    by_cases h2 : c = '\\'
    · subst h2
      rw [show escChar '\\' = ['\\', '\\'] from by decide]
      simp [braceScan, ih]
    by_cases h3 : c = '\n'
    · subst h3
      rw [show escChar '\n' = ['\\', 'n'] from by decide]
      simp [braceScan, ih]
    by_cases h4 : c = '\t'
    · subst h4
      rw [show escChar '\t' = ['\\', 't'] from by decide]
      simp [braceScan, ih]
    by_cases h5 : c = '\r'
    · subst h5
      rw [show escChar '\r' = ['\\', 'r'] from by decide]
      simp [braceScan, ih]
    by_cases h6 : c = '\x08'
    · subst h6
      rw [show escChar '\x08' = ['\\', 'b'] from by decide]
      simp [braceScan, ih]
    by_cases h7 : c = '\x0c'
    · subst h7
      rw [show escChar '\x0c' = ['\\', 'f'] from by decide]
      simp [braceScan, ih]
    by_cases h8 : c.toNat < 32
    · rw [show escChar c = ['\\', 'u', '0', '0',
          hexDigitChar (c.toNat / 16), hexDigitChar (c.toNat % 16)] from by
        simp only [escChar, if_neg h1, if_neg h2, if_neg h3, if_neg h4,
          if_neg h5, if_neg h6, if_neg h7, if_pos h8]]
      obtain ⟨hd1, hd2⟩ := hexDigitChar_plain (c.toNat / 16) (by omega)
      obtain ⟨hd3, hd4⟩ := hexDigitChar_plain (c.toNat % 16) (by omega)
      simp [braceScan, ih, hd1, hd2, hd3, hd4]
    · rw [show escChar c = [c] from by
        simp only [escChar, if_neg h1, if_neg h2, if_neg h3, if_neg h4,
          if_neg h5, if_neg h6, if_neg h7, if_neg h8]]
      simp [braceScan, ih, h1, h2]

theorem braceScan_serStr (s1 : List Char) (rest : List Char) (d : Nat) (acc : List Char) :
    braceScan (serStr s1 ++ rest) d false false acc
      = braceScan rest d false false ((serStr s1).reverse ++ acc) := by
  show braceScan (('"' :: (escStr s1 ++ ['"'])) ++ rest) d false false acc = _
  simp only [List.cons_append, List.append_assoc, List.singleton_append, braceScan]
  rw [if_pos trivial]
  simp only [List.append_eq, List.append_assoc, List.singleton_append, Bool.not_false]
  rw [braceScan_escStr]
  simp [braceScan, serStr]

theorem braceScan_digits (l : List Char) (hdig : ∀ c ∈ l, isDig c = true) :
    ∀ (rest : List Char) (d : Nat) (acc : List Char),
    braceScan (l ++ rest) d false false acc
      = braceScan rest d false false (l.reverse ++ acc) := by
  induction l with
  | nil => intro rest d acc; rfl
  | cons c t ih =>
    intro rest d acc
    have hc : isDig c = true := hdig c (List.mem_cons_self c t)
    simp only [List.cons_append, braceScan]
    rw [if_neg (by simp), if_neg (isDig_ne c '\\' hc (by decide)),
      if_neg (isDig_ne c '"' hc (by decide)), if_neg (by simp),
      if_neg (isDig_ne c '\x7b' hc (by decide)),
      if_neg (isDig_ne c '\x7d' hc (by decide))]
    simp only [List.append_eq]
    rw [ih (fun x hx => hdig x (List.mem_cons_of_mem c hx))]
    simp

theorem braceScan_plain (ch : Char) (h1 : ch ≠ '\\') (h2 : ch ≠ '"') (h3 : ch ≠ '\x7b')
    (h4 : ch ≠ '\x7d') (rest : List Char) (d : Nat) (acc : List Char) :
    braceScan (ch :: rest) d false false acc = braceScan rest d false false (ch :: acc) := by
  simp [braceScan, h1, h2, h3, h4]

theorem braceScan_open (rest : List Char) (d : Nat) (acc : List Char) :
    braceScan ('\x7b' :: rest) d false false acc
      = braceScan rest (d + 1) false false ('\x7b' :: acc) := by
  simp [braceScan]

theorem braceScan_close (rest : List Char) (d : Nat) (acc : List Char) (h : d ≠ 1) :
    braceScan ('\x7d' :: rest) d false false acc
      = braceScan rest (d - 1) false false ('\x7d' :: acc) := by
  simp [braceScan, h]

theorem braceScan_close1 (rest : List Char) (acc : List Char) :
    braceScan ('\x7d' :: rest) 1 false false acc = some ('\x7d' :: acc).reverse := by
  simp [braceScan]

set_option maxHeartbeats 1000000 in
theorem braceScan_ser_bound (n : Nat) :
    (∀ v rest d acc, (ser v).length ≤ n → 1 ≤ d →
      braceScan (ser v ++ rest) d false false acc
        = braceScan rest d false false ((ser v).reverse ++ acc)) ∧
    (∀ x xs rest d acc, (serItems (x :: xs)).length < n → 1 ≤ d →
      braceScan (serItems (x :: xs) ++ rest) d false false acc
        = braceScan rest d false false ((serItems (x :: xs)).reverse ++ acc)) ∧
    (∀ k v fs rest d acc, (serFields ((k, v) :: fs)).length < n → 1 ≤ d →
      braceScan (serFields ((k, v) :: fs) ++ rest) d false false acc
        = braceScan rest d false false ((serFields ((k, v) :: fs)).reverse ++ acc)) := by
  induction n with
  | zero =>
    refine ⟨?_, ?_, ?_⟩
    · intro v rest d acc hlen _
      have := ser_length_pos v
      omega
    · intro x xs rest d acc hlen _
      omega
    · intro k v fs rest d acc hlen _
      omega
  | succ m ih =>
    obtain ⟨ihP, ihQ, ihR⟩ := ih
    refine ⟨?_, ?_, ?_⟩
    · intro v rest d acc hlen hd
      match v with
      | .null =>
        rw [show (ser Json.null : List Char) = ['n', 'u', 'l', 'l'] from rfl]
        simp only [List.cons_append, List.nil_append]
        rw [braceScan_plain _ (by decide) (by decide) (by decide) (by decide),
          braceScan_plain _ (by decide) (by decide) (by decide) (by decide),
          braceScan_plain _ (by decide) (by decide) (by decide) (by decide),
          braceScan_plain _ (by decide) (by decide) (by decide) (by decide)]
        simp
      | .bool true =>
        rw [show (ser (Json.bool true) : List Char) = ['t', 'r', 'u', 'e'] from rfl]
        simp only [List.cons_append, List.nil_append]
        rw [braceScan_plain _ (by decide) (by decide) (by decide) (by decide),
          braceScan_plain _ (by decide) (by decide) (by decide) (by decide),
          braceScan_plain _ (by decide) (by decide) (by decide) (by decide),
          braceScan_plain _ (by decide) (by decide) (by decide) (by decide)]
        simp
      | .bool false =>
        rw [show (ser (Json.bool false) : List Char) = ['f', 'a', 'l', 's', 'e'] from rfl]
        simp only [List.cons_append, List.nil_append]
        rw [braceScan_plain _ (by decide) (by decide) (by decide) (by decide),
          braceScan_plain _ (by decide) (by decide) (by decide) (by decide),
          braceScan_plain _ (by decide) (by decide) (by decide) (by decide),
          braceScan_plain _ (by decide) (by decide) (by decide) (by decide),
          braceScan_plain _ (by decide) (by decide) (by decide) (by decide)]
        simp
      | .num i =>
        by_cases hneg : i < 0
        · rw [show ser (Json.num i) = '-' :: natChars i.natAbs from by
            show intChars i = _
            simp [intChars, hneg]]
          simp only [List.cons_append]
          rw [braceScan_plain _ (by decide) (by decide) (by decide) (by decide)]
          rw [braceScan_digits _ (natChars_all_digits _)]
          simp
        · rw [show ser (Json.num i) = natChars i.toNat from by
            show intChars i = _
            simp [intChars, hneg]]
          rw [braceScan_digits _ (natChars_all_digits _)]
      | .str s1 => exact braceScan_serStr s1 rest d acc
      | .arr items =>
        match items with
        | [] =>
          rw [show (ser (Json.arr []) : List Char) = ['[', ']'] from rfl]
          simp only [List.cons_append, List.nil_append]
          rw [braceScan_plain _ (by decide) (by decide) (by decide) (by decide),
            braceScan_plain _ (by decide) (by decide) (by decide) (by decide)]
          simp
        | x :: xs =>
          rw [show ser (Json.arr (x :: xs)) = '[' :: (serItems (x :: xs) ++ [']']) from rfl]
          have hb : (serItems (x :: xs)).length < m := by
            have h1 : (ser (.arr (x :: xs))).length = (serItems (x :: xs)).length + 2 := by
              show (('[' :: (serItems (x :: xs) ++ [']'])) : List Char).length = _
              simp
            omega
          simp only [List.cons_append, List.append_assoc, List.singleton_append]
          rw [braceScan_plain _ (by decide) (by decide) (by decide) (by decide)]
          rw [ihQ x xs _ d _ hb hd]
          rw [braceScan_plain _ (by decide) (by decide) (by decide) (by decide)]
          simp
      | .obj fields =>
        match fields with
        | [] =>
          rw [show (ser (Json.obj []) : List Char) = ['\x7b', '\x7d'] from rfl]
          simp only [List.cons_append, List.nil_append]
          rw [braceScan_open, braceScan_close _ _ _ (by omega)]
          simp
        | (k, v1) :: fs =>
          rw [show ser (Json.obj ((k, v1) :: fs))
            = '\x7b' :: (serFields ((k, v1) :: fs) ++ ['\x7d']) from rfl]
          have hb : (serFields ((k, v1) :: fs)).length < m := by
            have h1 : (ser (.obj ((k, v1) :: fs))).length
                = (serFields ((k, v1) :: fs)).length + 2 := by
              show (('\x7b' :: (serFields ((k, v1) :: fs) ++ ['\x7d'])) : List Char).length = _
              simp
            omega
          simp only [List.cons_append, List.append_assoc, List.singleton_append]
          rw [braceScan_open]
          rw [ihR k v1 fs _ (d + 1) _ hb (by omega)]
          rw [braceScan_close _ _ _ (by omega)]
          simp
    · intro x xs rest d acc hlen hd
      match xs with
      | [] =>
        rw [show serItems [x] = ser x from rfl]
        exact ihP x rest d acc (by
          have : serItems [x] = ser x := rfl
          rw [this] at hlen
          omega) hd
      | y :: ys =>
        rw [show serItems (x :: y :: ys) = ser x ++ ',' :: ' ' :: serItems (y :: ys) from rfl]
        have hlx : 1 ≤ (ser x).length := ser_length_pos x
        have hly : 1 ≤ (serItems (y :: ys)).length := serItems_length_pos y ys
        have hlen2 : (ser x).length + 2 + (serItems (y :: ys)).length ≤ m := by
          have he : serItems (x :: y :: ys) = ser x ++ ',' :: ' ' :: serItems (y :: ys) := rfl
          rw [he] at hlen
          simp at hlen
          omega
        simp only [List.append_assoc, List.cons_append]
        rw [ihP x _ d _ (by omega) hd]
        rw [braceScan_plain _ (by decide) (by decide) (by decide) (by decide),
          braceScan_plain _ (by decide) (by decide) (by decide) (by decide)]
        rw [ihQ y ys _ d _ (by omega) hd]
        simp
    · intro k v fs rest d acc hlen hd
      match fs with
      | [] =>
        rw [show serFields [(k, v)] = serStr k ++ ':' :: ' ' :: ser v from rfl]
        have hsl := serStr_length k
        have hlen2 : (ser v).length ≤ m := by
          have he : serFields [(k, v)] = serStr k ++ ':' :: ' ' :: ser v := rfl
          rw [he] at hlen
          simp [hsl] at hlen
          omega
        simp only [List.append_assoc, List.cons_append]
        rw [braceScan_serStr]
        rw [braceScan_plain _ (by decide) (by decide) (by decide) (by decide),
          braceScan_plain _ (by decide) (by decide) (by decide) (by decide)]
        rw [ihP v _ d _ hlen2 hd]
        simp
      | (k2, v2) :: fs2 =>
        rw [show serFields ((k, v) :: (k2, v2) :: fs2)
          = serStr k ++ ':' :: ' ' :: ser v ++ ',' :: ' ' :: serFields ((k2, v2) :: fs2) from rfl]
        have hsl := serStr_length k
        have hlv : 1 ≤ (ser v).length := ser_length_pos v
        have hlf : 1 ≤ (serFields ((k2, v2) :: fs2)).length := serFields_length_pos k2 v2 fs2
        have hlen2 : (escStr k).length + 2 + 2 + (ser v).length + 2
            + (serFields ((k2, v2) :: fs2)).length ≤ m + 1 := by
          have he : serFields ((k, v) :: (k2, v2) :: fs2)
              = serStr k ++ ':' :: ' ' :: ser v ++ ',' :: ' ' :: serFields ((k2, v2) :: fs2) := rfl
          rw [he] at hlen
          simp [hsl] at hlen
          omega
        simp only [List.append_assoc, List.cons_append]
        rw [braceScan_serStr]
        rw [braceScan_plain _ (by decide) (by decide) (by decide) (by decide),
          braceScan_plain _ (by decide) (by decide) (by decide) (by decide)]
        rw [ihP v _ d _ (by omega) hd]
        rw [braceScan_plain _ (by decide) (by decide) (by decide) (by decide),
          braceScan_plain _ (by decide) (by decide) (by decide) (by decide)]
        rw [ihR k2 v2 fs2 _ d _ (by omega) hd]
        simp

theorem braceScan_ser_obj (fields : List (List Char × Json)) (r : List Char) :
    braceScan (ser (.obj fields) ++ r) 0 false false [] = some (ser (.obj fields)) := by
  match fields with
  | [] =>
    rw [show (ser (Json.obj []) : List Char) = ['\x7b', '\x7d'] from rfl]
    simp only [List.cons_append, List.nil_append]
    rw [braceScan_open, braceScan_close1]
    rfl
  | (k, v) :: fs =>
    rw [show ser (Json.obj ((k, v) :: fs))
      = '\x7b' :: (serFields ((k, v) :: fs) ++ ['\x7d']) from rfl]
    simp only [List.cons_append, List.append_assoc, List.singleton_append]
    rw [braceScan_open]
    rw [(braceScan_ser_bound ((serFields ((k, v) :: fs)).length + 1)).2.2 k v fs _ 1 _
      (by omega) (by omega)]
    rw [braceScan_close1]
    simp

theorem extract_ser_obj (fields : List (List Char × Json)) (r : List Char) :
    extract_json_object (ser (.obj fields) ++ r) = some (ser (.obj fields)) := by
  have hshape : ser (.obj fields) ++ r = '\x7b' :: (serFields fields ++ '\x7d' :: r) := by
    show ('\x7b' :: (serFields fields ++ ['\x7d'])) ++ r = _
    simp
  unfold extract_json_object
  rw [hshape, List.dropWhile_cons]
  rw [if_neg (by simp)]
  show braceScan ('\x7b' :: (serFields fields ++ '\x7d' :: r)) 0 false false [] = _
  rw [← hshape, braceScan_ser_obj]

theorem parseVal_ser (v : Json) (rest : List Char) (fuel : Nat)
    (hfuel : (ser v).length ≤ fuel) (hnum : numOk v rest) :
    parseVal fuel (ser v ++ rest) = some (v, rest) :=
  (parse_ser fuel).1 v (ser v ++ rest) rest (skipWs_ser v rest) hfuel hnum

theorem jsonLoads_ser (v : Json) (rest : List Char) (hnum : numOk v rest) :
    jsonLoads (ser v ++ rest) = if skipWs rest = [] then some v else none := by
  have h := parseVal_ser v rest ((ser v ++ rest).length + 1) (by simp; omega) hnum
  simp only [jsonLoads, h]

theorem jsonLoadsDict_ser_obj (fields : List (List Char × Json)) (rest : List Char)
    (h : skipWs rest = []) :
    jsonLoadsDict (ser (.obj fields) ++ rest) = some fields := by
  have := jsonLoads_ser (.obj fields) rest trivial
  rw [if_pos h] at this
  simp [jsonLoadsDict, this]

theorem jsonLoadsDict_ser_obj_garbage (fields : List (List Char × Json)) (rest : List Char)
    (h : skipWs rest ≠ []) :
    jsonLoadsDict (ser (.obj fields) ++ rest) = none := by
  have := jsonLoads_ser (.obj fields) rest trivial
  rw [if_neg h] at this
  simp [jsonLoadsDict, this]

theorem jsonLoadsDict_ser_obj_nil (fields : List (List Char × Json)) :
    jsonLoadsDict (ser (.obj fields)) = some fields := by
  have := jsonLoadsDict_ser_obj fields [] rfl
  rwa [List.append_nil] at this

theorem parse_llm_json_of_clean (raw : List Char) (fields : List (List Char × Json))
    (r : List Char) (hclean : cleanContent raw = ser (.obj fields) ++ r) :
    parse_llm_json raw = fields := by
  by_cases hr : skipWs r = []
  · have h1 := jsonLoadsDict_ser_obj fields r hr
    simp [parse_llm_json, hclean, h1]
  · have h1 := jsonLoadsDict_ser_obj_garbage fields r hr
    have h2 := extract_ser_obj fields r
    have h3 := jsonLoadsDict_ser_obj_nil fields
    simp [parse_llm_json, hclean, h1, h2, h3]

-- ── C1: cleaning lemmas ────────────────────────────────────────

theorem dropWhile_head_false (p : Char → Bool) (c : Char) (t : List Char)
    (h : p c = false) : List.dropWhile p (c :: t) = c :: t := by
  simp [List.dropWhile_cons, h]

theorem rdropWhile_append (p : Char → Bool) (A B : List Char) :
    List.rdropWhile p (A ++ B)
      = if List.rdropWhile p B = [] then List.rdropWhile p A
        else A ++ List.rdropWhile p B := by
  simp only [List.rdropWhile, List.reverse_append, List.dropWhile_append]
  split
  · rename_i h
    rw [if_pos]
    simp only [List.isEmpty_iff] at h
    rw [h]
    rfl
  · rename_i h
    rw [if_neg]
    · simp
    · simp only [List.isEmpty_iff] at h
      intro hc
      apply h
      have := congrArg List.reverse hc
      simpa using this

theorem dropWhile_idem (p : Char → Bool) (l : List Char) :
    List.dropWhile p (List.dropWhile p l) = List.dropWhile p l := by
  induction l with
  | nil => rfl
  | cons c t ih =>
    by_cases h : p c = true
    · simp [List.dropWhile_cons, h, ih]
    · simp only [Bool.not_eq_true] at h
      simp [List.dropWhile_cons, h]

theorem rdropWhile_idem (p : Char → Bool) (l : List Char) :
    List.rdropWhile p (List.rdropWhile p l) = List.rdropWhile p l := by
  simp only [List.rdropWhile, List.reverse_reverse, dropWhile_idem]

theorem rdropWhile_append_of_self (p : Char → Bool) (A B : List Char)
    (hA : List.rdropWhile p A = A) :
    List.rdropWhile p (A ++ B) = A ++ List.rdropWhile p B := by
  rw [rdropWhile_append]
  split
  · rename_i h
    rw [hA, h, List.append_nil]
  · rfl

theorem rdropWhile_ser_obj (fields : List (List Char × Json)) :
    List.rdropWhile pySpace (ser (.obj fields)) = ser (.obj fields) := by
  rw [show ser (.obj fields) = ('\x7b' :: serFields fields) ++ ['\x7d'] from rfl]
  rw [List.rdropWhile_concat_neg _ _ _ (by decide)]

theorem pyStripList_ser_app (fields : List (List Char × Json)) (r : List Char) :
    pyStripList (ser (.obj fields) ++ r)
      = ser (.obj fields) ++ List.rdropWhile pySpace r := by
  unfold pyStripList
  rw [show ser (.obj fields) ++ r = '\x7b' :: (serFields fields ++ '\x7d' :: r) from by
    show ('\x7b' :: (serFields fields ++ ['\x7d'])) ++ r = _
    simp]
  rw [dropWhile_head_false _ _ _ (by decide)]
  rw [show '\x7b' :: (serFields fields ++ '\x7d' :: r) = ser (.obj fields) ++ r from by
    show _ = ('\x7b' :: (serFields fields ++ ['\x7d'])) ++ r
    simp]
  exact rdropWhile_append_of_self _ _ _ (rdropWhile_ser_obj fields)

theorem dropWhile_bom_ser (fields : List (List Char × Json)) (r : List Char) :
    List.dropWhile bomChar (ser (.obj fields) ++ r) = ser (.obj fields) ++ r := by
  rw [show ser (.obj fields) ++ r = '\x7b' :: (serFields fields ++ '\x7d' :: r) from by
    show ('\x7b' :: (serFields fields ++ ['\x7d'])) ++ r = _
    simp]
  exact dropWhile_head_false _ _ _ (by decide)

theorem dropWhile_head_true (p : Char → Bool) (c : Char) (t : List Char)
    (h : p c = true) : List.dropWhile p (c :: t) = List.dropWhile p t := by
  simp [List.dropWhile_cons, h]

theorem cleanContent_ser_obj (fields : List (List Char × Json)) :
    cleanContent (ser (.obj fields)) = ser (.obj fields) := by
  have h0 : pyStripList (ser (.obj fields)) = ser (.obj fields) := by
    have := pyStripList_ser_app fields []
    simpa using this
  have hpre : (chars "```").isPrefixOf (ser (.obj fields)) = false := rfl
  have hbom := dropWhile_bom_ser fields []
  rw [List.append_nil] at hbom
  simp [cleanContent, h0, hpre, hbom]

theorem stripFencesLead_fence (fields : List (List Char × Json)) (X : List Char) :
    stripFencesLead (chars "```json" ++ '\n' :: (ser (.obj fields) ++ X))
      = ser (.obj fields) ++ X := by
  unfold stripFencesLead
  rw [show chars "```json" ++ '\n' :: (ser (.obj fields) ++ X)
      = '`' :: '`' :: '`' :: ('j' :: 's' :: 'o' :: 'n' :: ('\n' :: (ser (.obj fields) ++ X))) from rfl]
  simp only [List.drop_succ_cons, List.drop_zero]
  rw [dropWhile_head_true _ _ _ (by decide), dropWhile_head_true _ _ _ (by decide),
    dropWhile_head_true _ _ _ (by decide), dropWhile_head_true _ _ _ (by decide),
    dropWhile_head_false _ _ _ (by decide)]
  rw [dropWhile_head_true _ _ _ (by decide)]
  rw [show ser (.obj fields) ++ X = '\x7b' :: (serFields fields ++ '\x7d' :: X) from by
    show ('\x7b' :: (serFields fields ++ ['\x7d'])) ++ X = _
    simp]
  exact dropWhile_head_false _ _ _ (by decide)

set_option maxHeartbeats 1000000 in
theorem cleanContent_fenced (fields : List (List Char × Json)) (prose : List Char) :
    ∃ r, cleanContent (chars "```json" ++ '\n' :: (ser (.obj fields)
        ++ '\n' :: (chars "```" ++ '\n' :: prose)))
      = ser (.obj fields) ++ r := by
  have hwid := rdropWhile_idem pySpace ('\n' :: prose)
  have hshape : chars "```json" ++ '\n' :: (ser (.obj fields) ++ '\n' :: chars "```")
      = (chars "```json" ++ '\n' :: (ser (.obj fields) ++ '\n' :: chars "``")) ++ ['`'] := by
    have hsplit : (chars "```" : List Char) = chars "``" ++ ['`'] := by decide
    rw [hsplit]
    simp
  have hA : List.rdropWhile pySpace (chars "```json" ++ '\n' :: (ser (.obj fields)
      ++ '\n' :: chars "```"))
      = chars "```json" ++ '\n' :: (ser (.obj fields) ++ '\n' :: chars "```") := by
    rw [hshape, List.rdropWhile_concat_neg _ _ _ (by decide)]
  have h1 : pyStripList (chars "```json" ++ '\n' :: (ser (.obj fields)
      ++ '\n' :: (chars "```" ++ '\n' :: prose)))
      = chars "```json" ++ '\n' :: (ser (.obj fields)
        ++ '\n' :: (chars "```" ++ List.rdropWhile pySpace ('\n' :: prose))) := by
    unfold pyStripList
    rw [show chars "```json" ++ '\n' :: (ser (.obj fields) ++ '\n' :: (chars "```" ++ '\n' :: prose))
        = '`' :: (chars "``json" ++ '\n' :: (ser (.obj fields) ++ '\n' :: (chars "```" ++ '\n' :: prose))) from rfl]
    rw [dropWhile_head_false _ _ _ (by decide)]
    rw [show '`' :: (chars "``json" ++ '\n' :: (ser (.obj fields) ++ '\n' :: (chars "```" ++ '\n' :: prose)))
        = (chars "```json" ++ '\n' :: (ser (.obj fields) ++ '\n' :: chars "```")) ++ ('\n' :: prose) from by
      rw [show (chars "```json" : List Char) = '`' :: chars "``json" from rfl]
      simp]
    rw [rdropWhile_append_of_self _ _ _ hA]
    simp
  have hpre : (chars "```").isPrefixOf (chars "```json" ++ '\n' :: (ser (.obj fields)
      ++ '\n' :: (chars "```" ++ List.rdropWhile pySpace ('\n' :: prose)))) = true := rfl
  have hBid : List.rdropWhile pySpace ('\n' :: (chars "```" ++ List.rdropWhile pySpace ('\n' :: prose)))
      = '\n' :: (chars "```" ++ List.rdropWhile pySpace ('\n' :: prose)) := by
    rw [show '\n' :: (chars "```" ++ List.rdropWhile pySpace ('\n' :: prose))
        = ('\n' :: chars "```") ++ List.rdropWhile pySpace ('\n' :: prose) from by simp]
    rw [rdropWhile_append, hwid]
    split
    · rename_i h
      rw [h, List.append_nil]
      decide
    · rfl
  have hu : List.rdropWhile pySpace (ser (.obj fields)
      ++ '\n' :: (chars "```" ++ List.rdropWhile pySpace ('\n' :: prose)))
      = ser (.obj fields) ++ '\n' :: (chars "```" ++ List.rdropWhile pySpace ('\n' :: prose)) := by
    rw [rdropWhile_append_of_self _ _ _ (rdropWhile_ser_obj fields), hBid]
  by_cases hsuf : (chars "```").isSuffixOf (ser (.obj fields)
      ++ '\n' :: (chars "```" ++ List.rdropWhile pySpace ('\n' :: prose))) = true
  · refine ⟨List.rdropWhile pySpace (List.rdropWhile pySpace
      (List.take (('\n' :: (chars "```" ++ List.rdropWhile pySpace ('\n' :: prose))).length - 3)
        ('\n' :: (chars "```" ++ List.rdropWhile pySpace ('\n' :: prose))))), ?_⟩
    simp only [cleanContent, h1]
    rw [if_pos hpre]
    rw [stripFencesLead_fence fields ('\n' :: (chars "```" ++ List.rdropWhile pySpace ('\n' :: prose)))]
    simp only [stripFencesTrail, hu]
    rw [if_pos hsuf]
    have hlen : (ser (.obj fields) ++ '\n' :: (chars "```"
        ++ List.rdropWhile pySpace ('\n' :: prose))).length - 3
        = (ser (.obj fields)).length
          + (('\n' :: (chars "```" ++ List.rdropWhile pySpace ('\n' :: prose))).length - 3) := by
      rw [show (chars "```" : List Char) = ['`', '`', '`'] from rfl]
      simp
      omega
    rw [hlen, List.take_append]
    rw [rdropWhile_append_of_self _ _ _ (rdropWhile_ser_obj fields)]
    rw [pyStripList_ser_app, dropWhile_bom_ser]
  · refine ⟨List.rdropWhile pySpace ('\n' :: (chars "```" ++ List.rdropWhile pySpace ('\n' :: prose))), ?_⟩
    simp only [cleanContent, h1]
    rw [if_pos hpre]
    rw [stripFencesLead_fence fields ('\n' :: (chars "```" ++ List.rdropWhile pySpace ('\n' :: prose)))]
    simp only [stripFencesTrail, hu]
    rw [if_neg hsuf]
    rw [pyStripList_ser_app, dropWhile_bom_ser]

/-- C1: for every JSON object `O` (an object value `.obj fields`),
`parse_llm_json` applied to the serialisation of `O` returns exactly the
fields of `O`; and applied to the serialisation wrapped in markdown code
fences with arbitrary trailing prose appended, it still returns the
fields of `O`. -/
theorem parse_llm_json_roundtrip :
    ∀ (fields : List (List Char × Json)) (prose : List Char),
      parse_llm_json (ser (.obj fields)) = fields ∧
      parse_llm_json (chars "```json" ++ '\n' :: (ser (.obj fields)
        ++ '\n' :: (chars "```" ++ '\n' :: prose))) = fields := by
  intro fields prose
  constructor
  · exact parse_llm_json_of_clean _ fields [] (by rw [cleanContent_ser_obj, List.append_nil])
  · obtain ⟨r, hr⟩ := cleanContent_fenced fields prose
    exact parse_llm_json_of_clean _ fields r hr
